import Mathlib

/-!
Verification development for the WLED browser's device registry and
command-dispatch engine (`wled_browser.py`).

The Python source is shallowly embedded below.  Strings are handled at the
character-list level (`List Char`) with ASCII semantics: the program's group
labels are restricted to `[A-Za-z0-9_]` and device names are compared after
ASCII lowercasing, so `Char.toLower` (ASCII) models Python's `str.lower` on
the inputs the program deals with.  Python's stable `list.sort` is modelled
by `List.insertionSort`, which is a stable sort; for a total preorder every
stable sort computes the same list, so this is extensionally faithful.
-/

namespace WLED

/-- One entry of the service database: the dict built by
`WLEDListener.add_service` and threaded through `scan_wled_devices` /
`command_loop` in `wled_browser.py`. -/
structure Device where
  name_long : String
  host_ip : String
  port : Nat
  friendly_name : String
  group : String
  power_state : Option Bool
  sync_enabled : Option Bool
  sync_send : Option Nat
  sync_recv : Option Nat
deriving DecidableEq, Repr

/-- The mDNS data one scan reports for one service (`zc.get_service_info`
fields used by `WLEDListener.add_service`). -/
structure ScanRecord where
  name_long : String
  host_ip : String
  port : Nat
  friendly_name : String
deriving DecidableEq, Repr

/-- `WLEDListener.add_service`: a freshly discovered service enters the
database with `group = '_default'` and every cached-state field `None`. -/
def ScanRecord.toDevice (r : ScanRecord) : Device :=
  { name_long := r.name_long, host_ip := r.host_ip, port := r.port,
    friendly_name := r.friendly_name, group := "_default",
    power_state := none, sync_enabled := none, sync_send := none, sync_recv := none }

/-! ### Character-level helpers (Python string primitives) -/

/-- Python `str.strip()` (whitespace), on the character list. -/
def trimWS (l : List Char) : List Char :=
  ((l.dropWhile Char.isWhitespace).reverse.dropWhile Char.isWhitespace).reverse

/-- Python `str.lower()` (ASCII fragment). -/
def toLowerL (l : List Char) : List Char := l.map Char.toLower

/-- Python `str.split(sep)` for a one-character separator: keeps empty
pieces, and the split of the empty string is `[[]]` (Python: `['']`). -/
def splitOnChar (c : Char) : List Char → List (List Char)
  | [] => [[]]
  | x :: xs =>
    if x == c then [] :: splitOnChar c xs
    else
      match splitOnChar c xs with
      | [] => [[x]]
      | h :: t => (x :: h) :: t

/-- Numeric value of an ASCII digit. -/
def digitVal (c : Char) : Nat := c.toNat - 48

/-- Digit run of Python `int`'s grammar: digits optionally separated by
single underscores (PEP 515), accumulating into `acc`. -/
def pyDigits : Nat → List Char → Option Nat
  | acc, [] => some acc
  | acc, '_' :: c :: rest =>
    if c.isDigit then pyDigits (acc * 10 + digitVal c) rest else none
  | acc, c :: rest =>
    if c.isDigit then pyDigits (acc * 10 + digitVal c) rest else none

/-- Unsigned part of Python `int(str)`: nonempty, starts with a digit. -/
def pyNat (l : List Char) : Option Nat :=
  match l with
  | [] => none
  | c :: rest => if c.isDigit then pyDigits (digitVal c) rest else none

/-- Python `int(str)`: surrounding whitespace stripped, optional single
sign, then digits with single underscore separators. -/
def pyInt (l : List Char) : Option Int :=
  match trimWS l with
  | '+' :: rest => (pyNat rest).map Int.ofNat
  | '-' :: rest => (pyNat rest).map (fun n => -(n : Int))
  | t => (pyNat t).map Int.ofNat

/-- Python `str.isdigit()` (ASCII fragment): nonempty and all digits. -/
def isDigitStr (l : List Char) : Bool := !l.isEmpty && l.all Char.isDigit

/-- Python `str.isalnum()` (ASCII fragment): nonempty and all alphanumeric. -/
def isAlnumStr (l : List Char) : Bool := !l.isEmpty && l.all Char.isAlphanum

/-! ### Sync-Mask Codec: `parse_sync_groups` -/

/-- The token loop of `parse_sync_groups`: empty tokens are skipped
(`if not part: continue`), every other token must be `int`-parsable with
value in `[1,8]`, contributing bit `n-1`. -/
def syncLoop : Nat → List (List Char) → Option Nat
  | bitmask, [] => some bitmask
  | bitmask, p :: rest =>
    let part := trimWS p
    if part.isEmpty then syncLoop bitmask rest
    else
      match pyInt part with
      | none => none
      | some n =>
        if n < 1 ∨ 8 < n then none
        else syncLoop (bitmask ||| (1 <<< (n.toNat - 1))) rest

/-- `parse_sync_groups(groups_str)` from `wled_browser.py`: empty, all
whitespace or (lowercased) `none` give mask `0`; otherwise the comma
tokens are folded by `syncLoop`. -/
def parse_sync_groups (groups_str : String) : Option Nat :=
  if groups_str == "" || String.mk (trimWS groups_str.data) == "" ||
      String.mk (toLowerL groups_str.data) == "none" then
    some 0
  else
    syncLoop 0 (splitOnChar ',' groups_str.data)

/-! ### Selector Grammar: `parse_range` -/

/-- Python `part[0].isdigit()` guarded by nonemptiness. -/
def headIsDigit : List Char → Bool
  | [] => false
  | c :: _ => c.isDigit

/-- `range(a, b + 1)` for `a ≤ b`. -/
def natRange (a b : Nat) : List Nat := (List.range (b + 1 - a)).map (a + ·)

/-- `[i for i, s in enumerate(services_list) if s['group'].lower() == group_name]`. -/
def groupIndices (svcs : List Device) (gname : List Char) : List Nat :=
  (svcs.enum.filter (fun p => toLowerL p.2.group.data == gname)).map Prod.fst

/-- One iteration of the `parse_range` loop: numeric range (term contains
a `-` and starts with a digit), bare numeric index, or — only when a
services list is supplied — a group name (alphanumeric after removing
underscores); anything else is invalid.  `none` models both `return None`
and an escaping `ValueError`. -/
def parseTerm (maxIndex : Nat) (svcs : Option (List Device)) (part0 : List Char) : Option (List Nat) :=
  let part := trimWS part0
  if part.contains '-' && headIsDigit part then
    match splitOnChar '-' part with
    | [a, b] =>
      match pyInt a, pyInt b with
      | some s, some e =>
        if s < 0 ∨ (maxIndex : Int) ≤ e ∨ e < s then none
        else some (natRange s.toNat e.toNat)
      | _, _ => none
    | _ => none
  else if isDigitStr part then
    match pyInt part with
    | some n => if (maxIndex : Int) ≤ n then none else some [n.toNat]
    | none => none

  else
    match svcs with
    | some l =>
      if isAlnumStr (part.filter (fun c => c != '_')) then
        let gidx := groupIndices l (toLowerL part)
        if gidx.isEmpty then none else some gidx
      else none
    | none => none

/-- The `for part in parts` loop of `parse_range`, accumulating expanded
indices in order; any invalid term aborts the whole parse. -/
def collectTerms (maxIndex : Nat) (svcs : Option (List Device)) : List (List Char) → Option (List Nat)
  | [] => some []
  | p :: ps =>
    match parseTerm maxIndex svcs p with
    | none => none
    | some e =>
      match collectTerms maxIndex svcs ps with
      | none => none
      | some r => some (e ++ r)

/-- Python `sorted(set(indices))`. -/
def sortedDedup (l : List Nat) : List Nat :=
  List.insertionSort (· ≤ ·) l.dedup

/-- `parse_range(range_str, max_index, services_list)` from
`wled_browser.py`. -/
def parse_range (range_str : String) (max_index : Nat) (services_list : Option (List Device)) : Option (List Nat) :=
  if toLowerL (trimWS range_str.data) == "all".data then some (List.range max_index)
  else
    match collectTerms max_index services_list (splitOnChar ',' range_str.data) with
    | none => none
    | some idxs => some (sortedDedup idxs)

/-! ### The registry sort
`services_list.sort(key=lambda s: (s['group'] != '_default',
s['group'].lower(), s['friendly_name'].lower()))`, used both after a merge
(line 114) and after the `group` command (line 1032). -/

/-- Strict lexicographic comparison of character lists by code point:
Python's `<` on strings. -/
def listLtb : List Char → List Char → Bool
  | [], [] => false
  | [], _ :: _ => true
  | _ :: _, [] => false
  | a :: as, b :: bs => if a < b then true else if b < a then false else listLtb as bs

/-- The Python sort key of one device, with the string components as
character lists. -/
def sortKey (d : Device) : Bool × List Char × List Char :=
  (d.group != "_default", toLowerL d.group.data, toLowerL d.friendly_name.data)

/-- Python `<` on `(bool, str, str)` key tuples (`False < True`). -/
def keyLtB (x y : Bool × List Char × List Char) : Bool :=
  (!x.1 && y.1) ||
    (x.1 == y.1 &&
      (listLtb x.2.1 y.2.1 || (x.2.1 == y.2.1 && listLtb x.2.2 y.2.2)))

/-- `a` may precede `b` in the sorted registry: its key is not greater. -/
def devLe (a b : Device) : Prop := keyLtB (sortKey b) (sortKey a) = false

instance : DecidableRel devLe := fun a b =>
  inferInstanceAs (Decidable (keyLtB (sortKey b) (sortKey a) = false))

/-- The registry re-sort (`services_list.sort(key=...)`). -/
def sortServices (l : List Device) : List Device := List.insertionSort devLe l

/-! ### Device Registry merge: `scan_wled_devices` -/

/-- Lines 100-102: a known device keeps `group` and all cached state and
takes `name_long`, `port`, `friendly_name` from the new scan record. -/
def refreshDevice (d : Device) (r : ScanRecord) : Device :=
  { d with name_long := r.name_long, port := r.port, friendly_name := r.friendly_name }

/-- Python dict assignment `m[k] = v` on an insertion-ordered association
list: overwrite in place if the key exists, else append. -/
def dictInsert (m : List (String × Device)) (k : String) (v : Device) : List (String × Device) :=
  if m.any (fun p => p.1 == k) then m.map (fun p => if p.1 == k then (k, v) else p)
  else m ++ [(k, v)]

/-- The dict comprehension `{s['host_ip']: s for s in service_db}`. -/
def dictOf (db : List Device) : List (String × Device) :=
  db.foldl (fun m d => dictInsert m d.host_ip d) []

/-- One iteration of the `for new_service in listener.services.values()`
loop: refresh the existing entry's mDNS fields in place, or add the new
record with its defaults. -/
def mergeStep (m : List (String × Device)) (r : ScanRecord) : List (String × Device) :=
  if m.any (fun p => p.1 == r.host_ip) then
    m.map (fun p => if p.1 == r.host_ip then (p.1, refreshDevice p.2 r) else p)
  else m ++ [(r.host_ip, r.toDevice)]

/-- The merge block of `scan_wled_devices` (lines 91-111), before the
sort: with a nonempty working database the scan records are folded into
the ip-keyed dict and its values taken in insertion order; a first scan
(`service_db` empty or absent, hence falsy) uses the scan results
directly. -/
def mergeScan (db : List Device) (scanned : List ScanRecord) : List Device :=
  if db.isEmpty then scanned.map ScanRecord.toDevice
  else (scanned.foldl mergeStep (dictOf db)).map Prod.snd

/-- `scan_wled_devices`: merge, then re-sort (line 114). -/
def scan_wled_devices (db : List Device) (scanned : List ScanRecord) : List Device :=
  sortServices (mergeScan db scanned)

/-- The last scan record carrying a given host ip, if any. -/
def lastScan (ip : String) (scanned : List ScanRecord) : Option ScanRecord :=
  (scanned.filter (fun r => r.host_ip == ip)).getLast?

/-! ### Group assignment (the `group` command, lines 1016-1032) -/

/-- Positional map used to model the in-place mutations of the `group`
command's two loops. -/
def mapIdxD (f : Nat → Device → Device) : Nat → List Device → List Device
  | _, [] => []
  | k, d :: rest => f k d :: mapIdxD f (k + 1) rest

/-- Lines 1021-1029: set `group` for every index in range; then, unless
the (lowercased) target group is `_default`, reset to `_default` every
device outside the range whose group matches case-insensitively. -/
def assignGroup (svcs : List Device) (indices : List Nat) (group_id : String) : List Device :=
  let l1 := mapIdxD (fun i d => if i ∈ indices then { d with group := group_id } else d) 0 svcs
  if String.mk (toLowerL group_id.data) != "_default" then
    mapIdxD
      (fun i d =>
        if i ∉ indices ∧ toLowerL d.group.data = toLowerL group_id.data then
          { d with group := "_default" }
        else d)
      0 l1
  else l1

/-- The `group` command re-sorts after reassigning (line 1032). -/
def groupCommand (svcs : List Device) (indices : List Nat) (group_id : String) : List Device :=
  sortServices (assignGroup svcs indices group_id)

/-! ### Per-device remote calls and their cache side effects
The HTTP transport is a black box; one attempt's observable outcome is an
HTTP status code or a raised exception.  `GET /json/state` additionally
carries a JSON payload, modelled as a string-keyed dict of booleans (the
only field the core reads is `on`). -/

/-- Outcome of one `requests.post` attempt. -/
inductive PostOutcome
  | status (code : Nat)
  | exn
deriving DecidableEq, Repr

/-- A JSON state document, as far as the cache logic reads it: a dict.
Python truthiness of the dict (`if success and status:`) is nonemptiness. -/
def StatusDoc := List (String × Bool)

/-- Outcome of one `requests.get` attempt against `/json/state`. -/
inductive GetOutcome
  | status (code : Nat) (payload : List (String × Bool))
  | exn
deriving DecidableEq, Repr

/-- `set_power` (one attempt, lines 410-434): on HTTP 200 update the
`power_state` cache to the requested state and succeed; otherwise fail
and leave the device untouched. -/
def set_power (service : Device) (state : Bool) (resp : PostOutcome) : Bool × Device :=
  match resp with
  | .status code =>
    if code == 200 then (true, { service with power_state := some state })
    else (false, service)
  | .exn => (false, service)

/-- `set_sync_enabled` (one attempt, lines 209-237): on HTTP 200 update
the `sync_enabled` cache; otherwise fail, device untouched. -/
def set_sync_enabled (service : Device) (enabled : Bool) (resp : PostOutcome) : Bool × Device :=
  match resp with
  | .status code =>
    if code == 200 then (true, { service with sync_enabled := some enabled })
    else (false, service)
  | .exn => (false, service)

/-- `set_sync_groups` (one attempt, lines 240-269): on HTTP 200 update the
`sync_send` and `sync_recv` caches; otherwise fail, device untouched. -/
def set_sync_groups (service : Device) (send_mask recv_mask : Nat) (resp : PostOutcome) : Bool × Device :=
  match resp with
  | .status code =>
    if code == 200 then (true, { service with sync_send := some send_mask, sync_recv := some recv_mask })
    else (false, service)
  | .exn => (false, service)

/-- `get_status` (one attempt, lines 272-295): on HTTP 200 return the
JSON payload; the device itself is not modified. -/
def get_status (resp : GetOutcome) : Bool × Option StatusDoc :=
  match resp with
  | .status code payload => if code == 200 then (true, some payload) else (false, none)
  | .exn => (false, none)

/-- The `retry_request` decorator (lines 179-206) applied to a
device-mutating call: one entry of `attempts` per attempt (the program
makes `retry_count + 1` of them), stopping at the first success and
otherwise returning the last attempt's result. -/
def retryRequest (call : Device → PostOutcome → Bool × Device) : Device → List PostOutcome → Bool × Device
  | d, [] => (false, d)
  | d, [r] => call d r
  | d, r :: rest =>
    match call d r with
    | (true, d1) => (true, d1)
    | (false, d1) => retryRequest call d1 rest

/-- `retry_request` applied to `get_status`. -/
def retryGetStatus : List GetOutcome → Bool × Option StatusDoc
  | [] => (false, none)
  | [r] => get_status r
  | r :: rest =>
    match get_status r with
    | (true, p) => (true, p)
    | (false, _) => retryGetStatus rest

/-- Per-device body of the `power` command (lines 899-905): a successful
status query with a truthy payload refreshes the `power_state` cache from
the response's `on` field; a failed query records the index as failed.
Returns the updated device and whether the index failed. -/
def powerRefresh (service : Device) (res : Bool × Option StatusDoc) : Device × Bool :=
  match res with
  | (true, some doc) =>
    if doc.isEmpty then (service, false)
    else ({ service with power_state := doc.lookup "on" }, false)
  | (true, none) => (service, false)
  | (false, _) => (service, true)

/-! ### Identify walk: `id_mode` (lines 527-583) -/

/-- One observable action of the identify walk: a power call against a
device index, or an error report for unrecognized input. -/
inductive IdEvent
  | off (devIdx : Nat)
  | on (devIdx : Nat)
  | err
deriving DecidableEq, Repr

/-- Entry into id mode: nothing at all for an empty target list
(`if not indices: return`); otherwise turn off every target in list
order, then turn on the target at position 0. -/
def idEnter (indices : List Nat) : List IdEvent :=
  match indices with
  | [] => []
  | i0 :: _ => indices.map (fun i => IdEvent.off i) ++ [IdEvent.on i0]

/-- One iteration of the id-mode loop on user input: the command is
stripped and lowercased; `e`/`exit` turns off the current target and
terminates (`none`); `n`/`next` and `p`/`prev` turn off the current
target and turn on the neighbour modulo the target count; anything else
reports an error and keeps the position.  `indices.getD pos 0` is a
total rendering of Python's `indices[current_pos]` (the loop maintains
`pos < len(indices)`), and `(pos + N - 1) % N` is Python's
`(current_pos - 1) % N`, which is non-negative. -/
def idStep (indices : List Nat) (pos : Nat) (inp : String) : List IdEvent × Option Nat :=
  let cmd := String.mk (toLowerL (trimWS inp.data))
  if cmd == "e" || cmd == "exit" then
    ([IdEvent.off (indices.getD pos 0)], none)
  else if cmd == "n" || cmd == "next" then
    let newPos := (pos + 1) % indices.length
    ([IdEvent.off (indices.getD pos 0), IdEvent.on (indices.getD newPos 0)], some newPos)
  else if cmd == "p" || cmd == "prev" then
    let newPos := (pos + indices.length - 1) % indices.length
    ([IdEvent.off (indices.getD pos 0), IdEvent.on (indices.getD newPos 0)], some newPos)
  else
    ([IdEvent.err], some pos)

/-- The id-mode loop over a finite list of user inputs. -/
def idLoop (indices : List Nat) : Nat → List String → List IdEvent
  | _, [] => []
  | pos, inp :: rest =>
    match idStep indices pos inp with
    | (evs, none) => evs
    | (evs, some p) => evs ++ idLoop indices p rest

/-- `id_mode`: entry guard, entry actions, then the input loop. -/
def idRun (indices : List Nat) (inputs : List String) : List IdEvent :=
  match indices with
  | [] => []
  | _ :: _ => idEnter indices ++ idLoop indices 0 inputs

/-! ### Bulk execution and the retry machinery (`command_loop`)
The claims exercise the `on`/`off` command family (lines 705-733) and the
`retry` command's reconstruction for it (lines 1063-1153); the transport
is abstracted to a per-device success function for one bulk pass. -/

/-- The retry bookkeeping globals: `last_command` and
`last_failed_indices`. -/
structure RetryState where
  last_command : Option String
  last_failed : List Nat
deriving DecidableEq, Repr

/-- Python `str.split(maxsplit=1)` on a command line: first whitespace
run separates the command word from the argument rest. -/
def splitMax1 (s : String) : String × String :=
  let t := s.data.dropWhile Char.isWhitespace
  (String.mk (t.takeWhile (fun c => !c.isWhitespace)),
   String.mk ((t.dropWhile (fun c => !c.isWhitespace)).dropWhile Char.isWhitespace))

/-- The `on`/`off` handler (lines 705-733): resolve the range against the
registry, call `set_power` per target in order collecting failures, set
`last_command` to the full command line and `last_failed_indices` to the
failures, clearing `last_command` when there were none.  `none` models
the invalid-range early `continue`. -/
def runOnOffCmd (command : String) (svcs : List Device) (transport : Nat → Bool) :
    Option (List Nat × RetryState) :=
  let parts := splitMax1 command
  match parse_range parts.2 svcs.length (some svcs) with
  | none => none
  | some indices =>
    let failed := indices.filter (fun i => !transport i)
    some (indices, { last_command := if failed.isEmpty then none else some command,
                     last_failed := failed })

/-- Result of the `retry` command. -/
inductive RetryResult
  | noCommand
  | noFailures
  | noDevices
  | badRange
  | notRetryable
  | executed (targets : List Nat) (st : RetryState)
deriving DecidableEq, Repr

/-- The `retry` handler (lines 1063-1153) for an original `on`/`off`
command: guard on a remembered command, a nonempty failure set and a
nonempty registry; rebuild `"<cmd> <sorted failed indices>"`; re-run the
power loop on the reparsed range.  The re-run records the new failure
set but — unlike the primary handler — never clears `last_command`.
Reconstructions for the other retryable commands (`reboot`, `power`,
`sync`, `syncgroups`, `state`, `info`) follow the same shape and are not
modelled; commands outside the retryable set answer `notRetryable`. -/
def retryCommand (svcs : List Device) (transport : Nat → Bool) (st : RetryState) : RetryResult :=
  match st.last_command with
  | none => .noCommand
  | some lc =>
    if st.last_failed.isEmpty then .noFailures
    else if svcs.isEmpty then .noDevices
    else
      let indicesStr :=
        String.intercalate "," ((List.insertionSort (· ≤ ·) st.last_failed).map Nat.repr)
      let origCmd := String.mk (toLowerL (splitMax1 lc).1.data)
      if origCmd == "on" || origCmd == "off" then
        let newCommand := origCmd ++ " " ++ indicesStr
        match parse_range indicesStr svcs.length (some svcs) with
        | none => .badRange
        | some indices =>
          .executed indices
            { last_command := some newCommand,
              last_failed := indices.filter (fun i => !transport i) }
      else .notRetryable

/-! ### Order lemmas for the registry sort -/

theorem listLtb_irrefl : ∀ l : List Char, listLtb l l = false := by
  intro l
  induction l with
  | nil => rfl
  | cons a as ih => simp [listLtb, lt_irrefl, ih]

theorem listLtb_cons_iff {x y : Char} {xs ys : List Char} :
    listLtb (x :: xs) (y :: ys) = true ↔ x < y ∨ (x = y ∧ listLtb xs ys = true) := by
  simp only [listLtb]
  by_cases h1 : x < y
  · simp [h1]
  · by_cases h2 : y < x
    · have hne : ¬(x = y) := fun he => absurd (he ▸ h2) (lt_irrefl y)
      simp [h1, h2, hne]
    · have hxy : x = y := le_antisymm (not_lt.1 h2) (not_lt.1 h1)
      simp [h1, h2, hxy]

theorem listLtb_trans {a : List Char} :
    ∀ {b c : List Char}, listLtb a b = true → listLtb b c = true → listLtb a c = true := by
  induction a with
  | nil =>
    intro b c h1 h2
    cases b with
    | nil => exact absurd h1 (by simp [listLtb])
    | cons y ys =>
      cases c with
      | nil => exact absurd h2 (by simp [listLtb])
      | cons z zs => simp [listLtb]
  | cons x xs ih =>
    intro b c h1 h2
    cases b with
    | nil => exact absurd h1 (by simp [listLtb])
    | cons y ys =>
      cases c with
      | nil => exact absurd h2 (by simp [listLtb])
      | cons z zs =>
        rcases listLtb_cons_iff.1 h1 with hxy | ⟨hxy, hres1⟩
        · rcases listLtb_cons_iff.1 h2 with hyz | ⟨hyz, _⟩
          · exact listLtb_cons_iff.2 (Or.inl (lt_trans hxy hyz))
          · exact listLtb_cons_iff.2 (Or.inl (hyz ▸ hxy))
        · rcases listLtb_cons_iff.1 h2 with hyz | ⟨hyz, hres2⟩
          · exact listLtb_cons_iff.2 (Or.inl (hxy ▸ hyz))
          · exact listLtb_cons_iff.2 (Or.inr ⟨hxy.trans hyz, ih hres1 hres2⟩)

theorem listLtb_asymm {a b : List Char} (h : listLtb a b = true) : listLtb b a = false := by
  by_contra hc
  have hb : listLtb b a = true := by
    cases hba : listLtb b a
    · exact absurd hba hc
    · rfl
  exact absurd (listLtb_trans h hb) (by simp [listLtb_irrefl])

theorem listLtb_conn {a : List Char} :
    ∀ {b : List Char}, listLtb a b = false → listLtb b a = false → a = b := by
  induction a with
  | nil =>
    intro b h1 _
    cases b with
    | nil => rfl
    | cons y ys => exact absurd h1 (by simp [listLtb])
  | cons x xs ih =>
    intro b h1 h2
    cases b with
    | nil => exact absurd h2 (by simp [listLtb])
    | cons y ys =>
      have n1 : ¬ listLtb (x :: xs) (y :: ys) = true := by simp [h1]
      have n2 : ¬ listLtb (y :: ys) (x :: xs) = true := by simp [h2]
      rw [listLtb_cons_iff] at n1 n2
      push_neg at n1 n2
      have hxy : x = y := le_antisymm n2.1 n1.1
      have hxs : xs = ys := by
        refine ih ?_ ?_
        · have := n1.2 hxy
          cases hr : listLtb xs ys
          · rfl
          · exact absurd hr this
        · have := n2.2 hxy.symm
          cases hr : listLtb ys xs
          · rfl
          · exact absurd hr this
      rw [hxy, hxs]

theorem keyLtB_iff {x y : Bool × List Char × List Char} :
    keyLtB x y = true ↔
      (x.1 = false ∧ y.1 = true) ∨
        (x.1 = y.1 ∧ (listLtb x.2.1 y.2.1 = true ∨
          (x.2.1 = y.2.1 ∧ listLtb x.2.2 y.2.2 = true))) := by
  simp [keyLtB, Bool.and_eq_true, Bool.or_eq_true, Bool.not_eq_true']

theorem keyLtB_irrefl (x : Bool × List Char × List Char) : keyLtB x x = false := by
  cases h : keyLtB x x
  · rfl
  · rcases keyLtB_iff.1 h with ⟨h1, h2⟩ | ⟨_, h1 | ⟨_, h1⟩⟩
    · exact absurd (h1 ▸ h2) (by simp)
    · exact absurd h1 (by simp [listLtb_irrefl])
    · exact absurd h1 (by simp [listLtb_irrefl])

theorem keyLtB_trans {x y z : Bool × List Char × List Char}
    (h1 : keyLtB x y = true) (h2 : keyLtB y z = true) : keyLtB x z = true := by
  rcases keyLtB_iff.1 h1 with ⟨hx, hy⟩ | ⟨hxy, hrest1⟩
  · rcases keyLtB_iff.1 h2 with ⟨hy2, hz⟩ | ⟨hyz, _⟩
    · exact absurd (hy ▸ hy2) (by simp)
    · exact keyLtB_iff.2 (Or.inl ⟨hx, hyz ▸ hy⟩)
  · rcases keyLtB_iff.1 h2 with ⟨hy2, hz⟩ | ⟨hyz, hrest2⟩
    · exact keyLtB_iff.2 (Or.inl ⟨hxy ▸ hy2, hz⟩)
    · refine keyLtB_iff.2 (Or.inr ⟨hxy.trans hyz, ?_⟩)
      rcases hrest1 with hl1 | ⟨he1, hl1⟩
      · rcases hrest2 with hl2 | ⟨he2, hl2⟩
        · exact Or.inl (listLtb_trans hl1 hl2)
        · exact Or.inl (he2 ▸ hl1)
      · rcases hrest2 with hl2 | ⟨he2, hl2⟩
        · exact Or.inl (he1 ▸ hl2)
        · exact Or.inr ⟨he1.trans he2, listLtb_trans hl1 hl2⟩

theorem keyLtB_conn {x y : Bool × List Char × List Char}
    (h1 : keyLtB x y = false) (h2 : keyLtB y x = false) : x = y := by
  have n1 : ¬ keyLtB x y = true := by simp [h1]
  have n2 : ¬ keyLtB y x = true := by simp [h2]
  rw [keyLtB_iff] at n1 n2
  push_neg at n1 n2
  have hb : x.1 = y.1 := by
    cases hx : x.1
    · cases hy : y.1
      · rfl
      · exact absurd hy (n1.1 hx)
    · cases hy : y.1
      · exact absurd hx (by simpa using n2.1 hy)
      · rfl
  have h21 : x.2.1 = y.2.1 := by
    have m1 := n1.2 hb
    have m2 := n2.2 hb.symm
    refine listLtb_conn ?_ ?_
    · cases hr : listLtb x.2.1 y.2.1
      · rfl
      · exact absurd hr m1.1
    · cases hr : listLtb y.2.1 x.2.1
      · rfl
      · exact absurd hr m2.1
  have h22 : x.2.2 = y.2.2 := by
    have m1 := (n1.2 hb).2 h21
    have m2 := (n2.2 hb.symm).2 h21.symm
    refine listLtb_conn ?_ ?_
    · cases hr : listLtb x.2.2 y.2.2
      · rfl
      · exact absurd hr m1
    · cases hr : listLtb y.2.2 x.2.2
      · rfl
      · exact absurd hr m2
  exact Prod.ext hb (Prod.ext h21 h22)

theorem keyLtB_asymm {x y : Bool × List Char × List Char}
    (h : keyLtB x y = true) : keyLtB y x = false := by
  cases hr : keyLtB y x
  · rfl
  · exact absurd (keyLtB_trans h hr) (by simp [keyLtB_irrefl])

instance : IsTotal Device devLe := by
  constructor
  intro a b
  unfold devLe
  cases h : keyLtB (sortKey b) (sortKey a)
  · exact Or.inl rfl
  · exact Or.inr (keyLtB_asymm h)

instance : IsTrans Device devLe := by
  constructor
  intro a b c h1 h2
  unfold devLe at *
  cases hca : keyLtB (sortKey c) (sortKey a)
  · rfl
  · exfalso
    cases hab : keyLtB (sortKey a) (sortKey b)
    · have hba : sortKey b = sortKey a := keyLtB_conn h1 hab
      rw [hba] at h2
      exact absurd hca (by simp [h2])
    · exact absurd (keyLtB_trans hca hab) (by simp [h2])

/-- The re-sorted registry is sorted by the Python sort key. -/
theorem sortServices_sorted (l : List Device) : List.Sorted devLe (sortServices l) :=
  List.sorted_insertionSort devLe l

/-- The re-sort only permutes the registry: every device survives
unchanged. -/
theorem sortServices_perm (l : List Device) : (sortServices l).Perm l :=
  List.perm_insertionSort devLe l

/-- The sort key order is total. -/
theorem devLe_total (a b : Device) : devLe a b ∨ devLe b a := IsTotal.total a b

/-! ### Claim C2: reindex ordering -/

/-- Sort key asserted by the specification's reindex claim, which reads
the default-group membership test case-insensitively: the lowercased
group label is compared against the default label. -/
def specSortKey (d : Device) : Bool × List Char × List Char :=
  (toLowerL d.group.data != "_default".data, toLowerL d.group.data, toLowerL d.friendly_name.data)

/-- Sample device carrying the reserved group label in a different
letter case, reachable through `group <range> _Default` (the group-id
validation accepts it and the additive `_default` branch applies). -/
def devCapDefault : Device :=
  { name_long := "a._wled._tcp.local.", host_ip := "192.168.0.11", port := 80,
    friendly_name := "aaa", group := "_Default",
    power_state := none, sync_enabled := none, sync_send := none, sync_recv := none }

/-- Sample device in the true default group. -/
def devLowDefault : Device :=
  { name_long := "b._wled._tcp.local.", host_ip := "192.168.0.12", port := 80,
    friendly_name := "bbb", group := "_default",
    power_state := none, sync_enabled := none, sync_send := none, sync_recv := none }

/-- C2 counterexample: the code sorts with a case-sensitive default-group
test (`s['group'] != '_default'`).  A device with group `_Default` and
name `aaa` is placed after a `_default` device named `bbb`, although the
claim's case-insensitive key orders it strictly first, so the re-sorted
list is not ordered by the claimed key. -/
theorem c2_reindex_counterexample :
    sortServices [devCapDefault, devLowDefault] = [devLowDefault, devCapDefault] ∧
      keyLtB (specSortKey devCapDefault) (specSortKey devLowDefault) = true := by
  constructor
  · decide
  · decide

theorem devLe_default_prefix {a b : Device} (h : devLe a b) (hb : b.group = "_default") :
    a.group = "_default" := by
  by_contra ha
  unfold devLe at h
  have hkb : (b.group != "_default") = false := by simp [hb]
  have hka : (a.group != "_default") = true := by simp [ha]
  simp [keyLtB, sortKey, hkb, hka] at h

/-- C2 amended: after every re-sort the registry is totally ordered by
the code's key — `(group != '_default', group.lower(),
friendly_name.lower())`, the default-group test being case-sensitive —
each displayed index equals the device's position, devices with group
exactly `_default` form a prefix, and the sort only permutes the
registry. -/
theorem c2_reindex_order (l : List Device) :
    List.Sorted devLe (sortServices l) ∧
      (∀ a b : Device, devLe a b ∨ devLe b a) ∧
      (sortServices l).Perm l ∧
      (∀ i (h : i < (sortServices l).enum.length), ((sortServices l).enum.get ⟨i, h⟩).1 = i) ∧
      (sortServices l).Pairwise (fun a b => b.group = "_default" → a.group = "_default") := by
  refine ⟨sortServices_sorted l, devLe_total, sortServices_perm l, ?_, ?_⟩
  · intro i h
    simp [List.get_eq_getElem, List.getElem_enum]
  · exact List.Pairwise.imp (fun h hb => devLe_default_prefix h hb) (sortServices_sorted l)

/-- C2 amended, evaluated: the two-device registry above re-sorts to a
list that is sorted by the code key with the `_default` device first. -/
theorem c2_reindex_order_witness :
    List.Sorted devLe (sortServices [devCapDefault, devLowDefault]) ∧
      (sortServices [devCapDefault, devLowDefault]).Perm [devCapDefault, devLowDefault] ∧
      ((sortServices [devCapDefault, devLowDefault]).enum.get ⟨0, by decide⟩).1 = 0 :=
  ⟨(c2_reindex_order [devCapDefault, devLowDefault]).1,
   (c2_reindex_order [devCapDefault, devLowDefault]).2.2.1,
   (c2_reindex_order [devCapDefault, devLowDefault]).2.2.2.1 0 (by decide)⟩

/-! ### Claim C9: sync-mask parsing -/

/-- A comma token the `parse_sync_groups` loop accepts: empty after
stripping (skipped), or parsing as an integer in `[1,8]`. -/
def syncTokOk (p : List Char) : Prop :=
  trimWS p = [] ∨ ∃ n : Int, pyInt (trimWS p) = some n ∧ 1 ≤ n ∧ n ≤ 8

/-- The mask contributed by a token list: bit `n-1` for every nonempty
token parsing to `n` (undefined tokens contribute nothing; the lemmas
only use this under `syncTokOk`). -/
def syncMask : List (List Char) → Nat
  | [] => 0
  | p :: rest =>
    let t := trimWS p
    if t.isEmpty then syncMask rest
    else
      match pyInt t with
      | some n => (1 <<< (n.toNat - 1)) ||| syncMask rest
      | none => syncMask rest

theorem syncLoop_ok : ∀ (parts : List (List Char)) (acc : Nat),
    (∀ p ∈ parts, syncTokOk p) → syncLoop acc parts = some (acc ||| syncMask parts) := by
  intro parts
  induction parts with
  | nil => intro acc _; simp [syncLoop, syncMask]
  | cons p rest ih =>
    intro acc hok
    rcases hok p (by simp) with hemp | ⟨n, hn, h1, h8⟩
    · have hemp' : (trimWS p).isEmpty = true := by simp [hemp]
      simp only [syncLoop, syncMask, hemp', if_true]
      exact ih acc (fun q hq => hok q (by simp [hq]))
    · have hne : (trimWS p).isEmpty = false := by
        cases ht : trimWS p
        · rw [ht] at hn; simp [pyInt, trimWS, pyNat] at hn
        · simp
      simp only [syncLoop, syncMask, hne, Bool.false_eq_true, if_false, hn]
      rw [if_neg (by omega : ¬(n < 1 ∨ 8 < n))]
      rw [ih _ (fun q hq => hok q (by simp [hq]))]
      simp [Nat.or_assoc]

theorem syncLoop_fail : ∀ (parts : List (List Char)) (acc : Nat),
    (∃ p ∈ parts, ¬ syncTokOk p) → syncLoop acc parts = none := by
  intro parts
  induction parts with
  | nil => intro acc h; simp at h
  | cons p rest ih =>
    intro acc hbad
    by_cases hemp : (trimWS p).isEmpty = true
    · have hpok : syncTokOk p := Or.inl (by simpa using hemp)
      rcases hbad with ⟨q, hq, hnq⟩
      rcases List.mem_cons.1 hq with rfl | hq'
      · exact absurd hpok hnq
      · simp only [syncLoop, hemp, if_true]
        exact ih acc ⟨q, hq', hnq⟩
    · have hemp' : (trimWS p).isEmpty = false := by
        cases hv : (trimWS p).isEmpty
        · rfl
        · exact absurd hv hemp
      simp only [syncLoop, hemp', Bool.false_eq_true, if_false]
      cases hn : pyInt (trimWS p) with
      | none => rfl
      | some n =>
        show (if n < 1 ∨ 8 < n then none
          else syncLoop (acc ||| 1 <<< (n.toNat - 1)) rest) = none
        by_cases hbound : n < 1 ∨ 8 < n
        · rw [if_pos hbound]
        · push_neg at hbound
          have hpok : syncTokOk p := Or.inr ⟨n, hn, hbound.1, hbound.2⟩
          rcases hbad with ⟨q, hq, hnq⟩
          rcases List.mem_cons.1 hq with rfl | hq'
          · exact absurd hpok hnq
          · rw [if_neg (by omega : ¬(n < 1 ∨ 8 < n))]
            exact ih _ ⟨q, hq', hnq⟩

theorem syncLoop_bound : ∀ (parts : List (List Char)) (acc : Nat) (m : Nat),
    acc < 256 → syncLoop acc parts = some m → m < 256 := by
  intro parts
  induction parts with
  | nil => intro acc m hacc hm; simp [syncLoop] at hm; omega
  | cons p rest ih =>
    intro acc m hacc hm
    simp only [syncLoop] at hm
    by_cases hemp : (trimWS p).isEmpty = true
    · rw [if_pos hemp] at hm
      exact ih acc m hacc hm
    · rw [if_neg hemp] at hm
      cases hn : pyInt (trimWS p) with
      | none => rw [hn] at hm; exact absurd hm (by simp)
      | some n =>
        rw [hn] at hm
        simp only at hm
        by_cases hb : n < 1 ∨ 8 < n
        · rw [if_pos hb] at hm; exact absurd hm (by simp)
        · rw [if_neg hb] at hm
          push_neg at hb
          have hshift : (1 <<< (n.toNat - 1)) < 256 := by
            have h1 : (2 : Nat) ^ (n.toNat - 1) ≤ 2 ^ 7 := Nat.pow_le_pow_right (by omega) (by omega)
            simpa [Nat.shiftLeft_eq] using lt_of_le_of_lt h1 (by omega)
          have hor : acc ||| (1 <<< (n.toNat - 1)) < 256 := by
            have h256 : (256 : Nat) = 2 ^ 8 := by norm_num
            rw [h256] at hacc hshift ⊢
            exact Nat.bitwise_lt hacc hshift
          exact ih _ m hor hm

/-- C9 counterexample: splitting `1,,3` on commas yields the empty token,
which does not parse as an integer; the claim therefore requires the
whole input to be invalid, but the code skips empty tokens and returns
mask 5. -/
theorem c9_sync_mask_counterexample :
    ("".data ∈ splitOnChar ',' ("1,,3".data)) ∧
      pyInt ("".data) = none ∧
      parse_sync_groups "1,,3" = some 5 := by
  refine ⟨by decide, by decide, by decide⟩

/-- C9 amended: `parse_sync_groups` returns 0 for the empty string, an
all-whitespace string or the literal `none` in any letter case;
otherwise it splits on commas and skips empty or all-whitespace tokens;
exactly when every remaining token parses as an integer in `[1,8]` it
returns the bitwise OR of bits `n-1` — an integer in `[0,255]`, with
duplicate tokens harmless — while any nonempty token that is non-numeric
or outside `[1,8]` invalidates the whole input. -/
theorem c9_sync_mask_parsing (s : String) :
    (s = "" ∨ trimWS s.data = [] ∨ toLowerL s.data = "none".data →
      parse_sync_groups s = some 0) ∧
      (¬(s = "" ∨ trimWS s.data = [] ∨ toLowerL s.data = "none".data) →
        ((∀ p ∈ splitOnChar ',' s.data, syncTokOk p) →
            parse_sync_groups s = some (syncMask (splitOnChar ',' s.data))) ∧
        ((∃ p ∈ splitOnChar ',' s.data, ¬ syncTokOk p) → parse_sync_groups s = none)) ∧
      (∀ m, parse_sync_groups s = some m → m < 256) ∧
      parse_sync_groups "1,3,5" = some 21 ∧
      parse_sync_groups "1,1" = some 1 ∧
      parse_sync_groups "9" = none ∧
      parse_sync_groups "NONE" = some 0 ∧
      parse_sync_groups "" = some 0 := by
  have hguard : (s == "" || String.mk (trimWS s.data) == "" ||
      String.mk (toLowerL s.data) == "none") = true ↔
      (s = "" ∨ trimWS s.data = [] ∨ toLowerL s.data = "none".data) := by
    simp only [Bool.or_eq_true, beq_iff_eq, String.ext_iff]
    constructor
    · rintro ((h | h) | h)
      · exact Or.inl (by simpa [String.ext_iff] using h)
      · exact Or.inr (Or.inl (by simpa using h))
      · exact Or.inr (Or.inr (by simpa using h))
    · rintro (h | h | h)
      · exact Or.inl (Or.inl (by simp [h]))
      · exact Or.inl (Or.inr (by simp [h]))
      · exact Or.inr (by simp [h])
  refine ⟨?_, ?_, ?_, by decide, by decide, by decide, by decide, by decide⟩
  · intro h
    unfold parse_sync_groups
    rw [if_pos (hguard.2 h)]
  · intro h
    have hg : (s == "" || String.mk (trimWS s.data) == "" ||
        String.mk (toLowerL s.data) == "none") = false := by
      cases hb : (s == "" || String.mk (trimWS s.data) == "" ||
          String.mk (toLowerL s.data) == "none")
      · rfl
      · exact absurd (hguard.1 hb) h
    constructor
    · intro hok
      unfold parse_sync_groups
      rw [if_neg (by simp [hg])]
      simpa using syncLoop_ok _ 0 hok
    · intro hbad
      unfold parse_sync_groups
      rw [if_neg (by simp [hg])]
      exact syncLoop_fail _ 0 hbad
  · intro m hm
    unfold parse_sync_groups at hm
    by_cases hb : (s == "" || String.mk (trimWS s.data) == "" ||
        String.mk (toLowerL s.data) == "none") = true
    · rw [if_pos hb] at hm
      have : m = 0 := by simpa using hm.symm
      omega
    · rw [if_neg hb] at hm
      exact syncLoop_bound _ 0 m (by omega) hm

/-- C9 amended, evaluated: both sync groups 2 and 8 set their bits. -/
theorem c9_sync_mask_parsing_witness :
    parse_sync_groups "2,8" = some (syncMask (splitOnChar ',' ("2,8".data))) ∧
      syncMask (splitOnChar ',' ("2,8".data)) = 130 := by
  constructor
  · refine ((c9_sync_mask_parsing "2,8").2.1 (by decide)).1 ?_
    have hsplit : splitOnChar ',' ("2,8".data) = ["2".data, "8".data] := by decide
    rw [hsplit]
    intro p hp
    rcases List.mem_cons.1 hp with rfl | hp2
    · exact Or.inr ⟨2, by decide, by decide, by decide⟩
    · rcases List.mem_cons.1 hp2 with rfl | hp3
      · exact Or.inr ⟨8, by decide, by decide, by decide⟩
      · simp at hp3
  · decide

/-! ### Helper lemmas about the selector parser -/

theorem dropWhile_eq_self_of_none {f : Char → Bool} :
    ∀ {l : List Char}, (∀ c ∈ l, f c = false) → l.dropWhile f = l := by
  intro l h
  cases l with
  | nil => rfl
  | cons x xs =>
    rw [List.dropWhile_cons, if_neg]
    simp [h x (by simp)]

theorem trimWS_eq_self {l : List Char} (h : ∀ c ∈ l, c.isWhitespace = false) :
    trimWS l = l := by
  unfold trimWS
  rw [dropWhile_eq_self_of_none h,
    dropWhile_eq_self_of_none (fun c hc => h c (List.mem_reverse.1 hc)), List.reverse_reverse]

theorem isDigit_not_ws {c : Char} (h : c.isDigit = true) : c.isWhitespace = false := by
  cases hw : c.isWhitespace
  · rfl
  · exfalso
    simp only [Char.isWhitespace, Bool.or_eq_true, decide_eq_true_eq] at hw
    rcases hw with ((rfl | rfl) | rfl) | rfl <;> exact absurd h (by decide)

theorem isDigitStr_head {c : Char} {rest : List Char} (h : isDigitStr (c :: rest) = true) :
    c.isDigit = true := by
  simp [isDigitStr] at h
  exact h.1

theorem trimWS_of_digits {l : List Char} (h : isDigitStr l = true) : trimWS l = l := by
  refine trimWS_eq_self (fun c hc => ?_)
  have : c.isDigit = true := by
    simp [isDigitStr, List.all_eq_true] at h
    exact h.2 c hc
  exact isDigit_not_ws this

theorem digits_no_dash {l : List Char} (h : isDigitStr l = true) : l.contains '-' = false := by
  cases hc : l.contains '-'
  · rfl
  · exfalso
    have hc' : List.elem '-' l = true := hc
    rw [List.elem_eq_mem] at hc'
    have hm : ('-') ∈ l := by simpa using hc'
    have h2 : ∀ c ∈ l, c.isDigit = true := by
      have h3 := h
      simp only [isDigitStr, Bool.and_eq_true, List.all_eq_true] at h3
      exact h3.2
    exact absurd (h2 _ hm) (by decide)

theorem alnum_no_dash {l : List Char}
    (h : isAlnumStr (l.filter (fun c => c != '_')) = true) : l.contains '-' = false := by
  cases hc : l.contains '-'
  · rfl
  · exfalso
    have hc' : List.elem '-' l = true := hc
    rw [List.elem_eq_mem] at hc'
    have hm : ('-') ∈ l := by simpa using hc'
    have hm2 : ('-') ∈ l.filter (fun c => c != '_') := by
      simp [List.mem_filter, hm]
    have h2 : ∀ c ∈ l.filter (fun c => c != '_'), c.isAlphanum = true := by
      have h3 := h
      simp only [isAlnumStr, Bool.and_eq_true, List.all_eq_true] at h3
      exact h3.2
    exact absurd (h2 _ hm2) (by decide)

theorem pyInt_of_digits {l : List Char} (h : isDigitStr l = true) :
    pyInt l = (pyNat l).map Int.ofNat := by
  have ht : trimWS l = l := trimWS_of_digits h
  unfold pyInt
  rw [ht]
  cases l with
  | nil => simp [isDigitStr] at h
  | cons c rest =>
    have hc : c.isDigit = true := isDigitStr_head h
    split
    · rename_i r heq
      exfalso
      have : c = '+' := by injection heq
      rw [this] at hc
      exact absurd hc (by decide)
    · rename_i r heq
      exfalso
      have : c = '-' := by injection heq
      rw [this] at hc
      exact absurd hc (by decide)
    · rfl

theorem splitOnChar_ne_nil (c : Char) : ∀ l : List Char, splitOnChar c l ≠ [] := by
  intro l
  cases l with
  | nil => simp [splitOnChar]
  | cons x xs =>
    unfold splitOnChar
    by_cases hx : (x == c) = true
    · simp [hx]
    · simp only [hx, Bool.false_eq_true, if_false]
      cases hr : splitOnChar c xs <;> simp

theorem splitOnChar_single {c : Char} :
    ∀ {l b : List Char}, splitOnChar c l = [b] → l = b := by
  intro l
  induction l with
  | nil =>
    intro b h
    simp only [splitOnChar, List.cons.injEq, and_true] at h
    exact h
  | cons x xs ih =>
    intro b h
    unfold splitOnChar at h
    by_cases hx : (x == c) = true
    · rw [if_pos hx] at h
      injection h with _ h2
      exact absurd h2 (splitOnChar_ne_nil c xs)
    · rw [if_neg hx] at h
      cases hr : splitOnChar c xs with
      | nil => exact absurd hr (splitOnChar_ne_nil c xs)
      | cons hh tt =>
        rw [hr] at h
        injection h with h1 h2
        have hxs : xs = hh := ih (by rw [hr, h2])
        rw [← h1, hxs]

theorem splitOnChar_pair {c : Char} :
    ∀ {l a b : List Char}, splitOnChar c l = [a, b] → l = a ++ c :: b := by
  intro l
  induction l with
  | nil => intro a b h; simp [splitOnChar] at h
  | cons x xs ih =>
    intro a b h
    unfold splitOnChar at h
    by_cases hx : (x == c) = true
    · rw [if_pos hx] at h
      injection h with h1 h2
      have hxs : xs = b := splitOnChar_single h2
      have hxc : x = c := by simpa using hx
      rw [← h1, hxc, hxs]
      rfl
    · rw [if_neg hx] at h
      cases hr : splitOnChar c xs with
      | nil => exact absurd hr (splitOnChar_ne_nil c xs)
      | cons hh tt =>
        rw [hr] at h
        injection h with h1 h2
        have hxs : xs = hh ++ c :: b := ih (by rw [hr, h2])
        rw [← h1, hxs]
        rfl

theorem parseTerm_digit {N : Nat} {svcs : Option (List Device)} {t0 : List Char} {n : Nat}
    (hd : isDigitStr (trimWS t0) = true) (hn : pyNat (trimWS t0) = some n) (hlt : n < N) :
    parseTerm N svcs t0 = some [n] := by
  unfold parseTerm
  have hnc : (trimWS t0).contains '-' = false := digits_no_dash hd
  rw [if_neg (fun hcon => by rw [hnc] at hcon; simp at hcon)]
  rw [if_pos hd]
  rw [pyInt_of_digits hd, hn]
  show (if ((N : Nat) : Int) ≤ (n : Int) then none else some [((n : Int)).toNat]) = some [n]
  rw [if_neg (by omega : ¬((N : Nat) : Int) ≤ (n : Int))]
  simp

theorem parseTerm_range {N : Nat} {svcs : Option (List Device)} {t0 a b : List Char} {va vb : Nat}
    (hsplit : splitOnChar '-' (trimWS t0) = [a, b])
    (ha : isDigitStr a = true) (hb : isDigitStr b = true)
    (hva : pyNat a = some va) (hvb : pyNat b = some vb)
    (hle : va ≤ vb) (hlt : vb < N) :
    parseTerm N svcs t0 = some (natRange va vb) := by
  have heq : trimWS t0 = a ++ '-' :: b := splitOnChar_pair hsplit
  have hane : a ≠ [] := by
    intro hnil
    rw [hnil] at ha
    simp [isDigitStr] at ha
  obtain ⟨x, a2, rfl⟩ : ∃ x a2, a = x :: a2 := by
    cases a with
    | nil => exact absurd rfl hane
    | cons x a2 => exact ⟨x, a2, rfl⟩
  have hx : x.isDigit = true := isDigitStr_head ha
  have hm : ('-') ∈ trimWS t0 := by
    rw [heq]; simp
  have hcont : (trimWS t0).contains '-' = true := by
    show List.elem '-' (trimWS t0) = true
    rw [List.elem_eq_mem]
    simp [hm]
  have hhead : headIsDigit (trimWS t0) = true := by
    rw [heq]
    simpa [headIsDigit] using hx
  unfold parseTerm
  rw [if_pos (by rw [hcont, Bool.true_and, hhead])]
  rw [hsplit]
  show (match pyInt (x :: a2), pyInt b with
    | some s, some e =>
      if s < 0 ∨ ((N : Nat) : Int) ≤ e ∨ e < s then none
      else some (natRange s.toNat e.toNat)
    | _, _ => none) = some (natRange va vb)
  rw [pyInt_of_digits ha, pyInt_of_digits hb, hva, hvb]
  show (if (va : Int) < 0 ∨ ((N : Nat) : Int) ≤ (vb : Int) ∨ (vb : Int) < (va : Int)
    then none else some (natRange ((va : Int)).toNat ((vb : Int)).toNat)) = some (natRange va vb)
  rw [if_neg (by omega :
    ¬((va : Int) < 0 ∨ ((N : Nat) : Int) ≤ (vb : Int) ∨ (vb : Int) < (va : Int)))]
  simp

theorem parseTerm_group {N : Nat} {l : List Device} {t0 : List Char}
    (halnum : isAlnumStr ((trimWS t0).filter (fun c => c != '_')) = true)
    (hnd : isDigitStr (trimWS t0) = false) :
    parseTerm N (some l) t0 =
      (if (groupIndices l (toLowerL (trimWS t0))).isEmpty then none
       else some (groupIndices l (toLowerL (trimWS t0)))) := by
  unfold parseTerm
  have hnc : (trimWS t0).contains '-' = false := alnum_no_dash halnum
  rw [if_neg (fun hcon => by rw [hnc] at hcon; simp at hcon)]
  rw [if_neg (fun hcon => by rw [hnd] at hcon; simp at hcon)]
  simp only [halnum, if_true]

theorem parseTerm_group_none {N : Nat} {t0 : List Char}
    (halnum : isAlnumStr ((trimWS t0).filter (fun c => c != '_')) = true)
    (hnd : isDigitStr (trimWS t0) = false) :
    parseTerm N none t0 = none := by
  unfold parseTerm
  have hnc : (trimWS t0).contains '-' = false := alnum_no_dash halnum
  rw [if_neg (fun hcon => by rw [hnc] at hcon; simp at hcon)]
  rw [if_neg (fun hcon => by rw [hnd] at hcon; simp at hcon)]

theorem collectTerms_fail {N : Nat} {svcs : Option (List Device)} :
    ∀ {parts : List (List Char)}, (∃ p ∈ parts, parseTerm N svcs p = none) →
      collectTerms N svcs parts = none := by
  intro parts
  induction parts with
  | nil => intro h; simp at h
  | cons p ps ih =>
    intro h
    cases hp : parseTerm N svcs p with
    | none => simp [collectTerms, hp]
    | some e =>
      rcases h with ⟨q, hq, hnq⟩
      rcases List.mem_cons.1 hq with rfl | hq'
      · exact absurd hp (by simp [hnq])
      · simp [collectTerms, hp, ih ⟨q, hq', hnq⟩]

theorem collectTerms_ok {N : Nat} {svcs : Option (List Device)} :
    ∀ {parts : List (List Char)}, (∀ p ∈ parts, (parseTerm N svcs p).isSome = true) →
      ∃ r, collectTerms N svcs parts = some r ∧
        ∀ i, i ∈ r ↔ ∃ p ∈ parts, ∃ e, parseTerm N svcs p = some e ∧ i ∈ e := by
  intro parts
  induction parts with
  | nil => intro _; exact ⟨[], rfl, by simp⟩
  | cons p ps ih =>
    intro h
    obtain ⟨e, hp⟩ := Option.isSome_iff_exists.1 (h p (by simp))
    obtain ⟨r, hr, hmem⟩ := ih (fun q hq => h q (by simp [hq]))
    refine ⟨e ++ r, by simp [collectTerms, hp, hr], fun i => ?_⟩
    simp only [List.mem_append, List.mem_cons]
    constructor
    · rintro (hi | hi)
      · exact ⟨p, Or.inl rfl, e, hp, hi⟩
      · obtain ⟨q, hq, e2, hq2, hi2⟩ := (hmem i).1 hi
        exact ⟨q, Or.inr hq, e2, hq2, hi2⟩
    · rintro ⟨q, rfl | hq, e2, hq2, hi2⟩
      · rw [hp] at hq2
        injection hq2 with he
        exact Or.inl (he ▸ hi2)
      · exact Or.inr ((hmem i).2 ⟨q, hq, e2, hq2, hi2⟩)

theorem sortedDedup_sorted (l : List Nat) : List.Sorted (· ≤ ·) (sortedDedup l) :=
  List.sorted_insertionSort (· ≤ ·) l.dedup

theorem sortedDedup_nodup (l : List Nat) : (sortedDedup l).Nodup :=
  ((List.perm_insertionSort (· ≤ ·) l.dedup).nodup_iff).2 l.nodup_dedup

theorem mem_sortedDedup {l : List Nat} {i : Nat} : i ∈ sortedDedup l ↔ i ∈ l := by
  unfold sortedDedup
  rw [List.mem_insertionSort, List.mem_dedup]

/-! ### Claim C3: selector resolution -/

/-- Term validity as the specification's selector claim states it: a bare
integer (digit literal) in `[0,N)`; a range `A-B` whose bounds are digit
literals with `A ≤ B < N`; or — when a registry is supplied — any other
alphanumeric/underscore token naming a group carried by at least one
device (case-insensitively). -/
def specTermValid (N : Nat) (reg : Option (List Device)) (t0 : List Char) : Bool :=
  let t := trimWS t0
  (isDigitStr t &&
      (match pyNat t with
       | some n => decide (n < N)
       | none => false)) ||
    (match splitOnChar '-' t with
     | [a, b] =>
       isDigitStr a && isDigitStr b &&
         (match pyNat a, pyNat b with
          | some va, some vb => decide (va ≤ vb) && decide (vb < N)
          | _, _ => false)
     | _ => false) ||
    (!(isDigitStr t) &&
      (match reg with
       | some l =>
         isAlnumStr (t.filter (fun c => c != '_')) && !(groupIndices l (toLowerL t)).isEmpty
       | none => false))

/-- C3 counterexample: the term `1-+2` is invalid under the claim's term
grammar (not a bare integer, not a range with non-negative integer
literal bounds, not a group name), so the claim requires the selector
`1-+2` to be rejected; the code instead accepts it — Python's `int`
parses the signed second bound — and returns `[1, 2]`. -/
theorem c3_selector_counterexample :
    specTermValid 3 none ("1-+2".data) = false ∧
      splitOnChar ',' ("1-+2".data) = ["1-+2".data] ∧
      parse_range "1-+2" 3 none = some [1, 2] := by
  refine ⟨by decide, by decide, by decide⟩

/-- C3 amended: when the whole spec is not `all`, any term the code's
parse rejects invalidates the entire selector with no partial result;
when every term is accepted the result is the sorted, duplicate-free
union of the term expansions; every term that is valid in the claim's
sense (bare digit index, digit-literal range, known group name) is
accepted, the difference being only that the code's range form also
tolerates bounds that Python's `int` parses (sign or underscores in the
second bound, as in `1-+2`); and the claim's concrete examples hold. -/
theorem c3_selector_resolution (spec : String) (N : Nat) (svcs : Option (List Device))
    (hall : toLowerL (trimWS spec.data) ≠ "all".data) :
    ((∃ p ∈ splitOnChar ',' spec.data, parseTerm N svcs p = none) →
        parse_range spec N svcs = none) ∧
      ((∀ p ∈ splitOnChar ',' spec.data, (parseTerm N svcs p).isSome = true) →
        ∃ r, parse_range spec N svcs = some r ∧ List.Sorted (· ≤ ·) r ∧ r.Nodup ∧
          (∀ i, i ∈ r ↔ ∃ p ∈ splitOnChar ',' spec.data, ∃ e, parseTerm N svcs p = some e ∧ i ∈ e)) ∧
      (∀ t0, specTermValid N svcs t0 = true → (parseTerm N svcs t0).isSome = true) ∧
      parse_range "0,2-4,7" 8 none = some [0, 2, 3, 4, 7] ∧
      parse_range "5" 3 none = none := by
  have hguard : (toLowerL (trimWS spec.data) == "all".data) = false := by
    cases hb : (toLowerL (trimWS spec.data) == "all".data)
    · rfl
    · exact absurd (by simpa using hb) hall
  refine ⟨?_, ?_, ?_, by decide, by decide⟩
  · intro h
    unfold parse_range
    rw [if_neg (by simp [hguard])]
    rw [collectTerms_fail h]
  · intro h
    obtain ⟨r0, hc, hmem⟩ := collectTerms_ok h
    unfold parse_range
    rw [if_neg (by simp [hguard]), hc]
    exact ⟨sortedDedup r0, rfl, sortedDedup_sorted r0, sortedDedup_nodup r0,
      fun i => by rw [mem_sortedDedup]; exact hmem i⟩
  · intro t0 hv
    unfold specTermValid at hv
    simp only [Bool.or_eq_true] at hv
    rcases hv with (hA | hB) | hC
    · rw [Bool.and_eq_true] at hA
      obtain ⟨hd, hm⟩ := hA
      cases hpn : pyNat (trimWS t0) with
      | none => rw [hpn] at hm; simp at hm
      | some n =>
        rw [hpn] at hm
        simp only [decide_eq_true_eq] at hm
        rw [parseTerm_digit hd hpn hm]
        rfl
    · cases hsp : splitOnChar '-' (trimWS t0) with
      | nil => rw [hsp] at hB; simp at hB
      | cons a rest =>
        cases rest with
        | nil => rw [hsp] at hB; simp at hB
        | cons b rest2 =>
          cases rest2 with
          | cons c rest3 => rw [hsp] at hB; simp at hB
          | nil =>
            rw [hsp] at hB
            simp only [Bool.and_eq_true] at hB
            obtain ⟨⟨ha, hb⟩, hm⟩ := hB
            cases hpa : pyNat a with
            | none => rw [hpa] at hm; simp at hm
            | some va =>
              cases hpb : pyNat b with
              | none => rw [hpa, hpb] at hm; simp at hm
              | some vb =>
                rw [hpa, hpb] at hm
                simp only [Bool.and_eq_true, decide_eq_true_eq] at hm
                rw [parseTerm_range hsp ha hb hpa hpb hm.1 hm.2]
                rfl
    · rw [Bool.and_eq_true] at hC
      obtain ⟨hnd', hm⟩ := hC
      have hnd : isDigitStr (trimWS t0) = false := by
        rw [Bool.not_eq_true'] at hnd'
        exact hnd'
      cases svcs with
      | none => simp at hm
      | some l =>
        simp only [Bool.and_eq_true, Bool.not_eq_true'] at hm
        rw [parseTerm_group hm.1 hnd]
        rw [if_neg (by simp [hm.2])]
        rfl

/-- C3 amended, evaluated: the sample selector from the claim. -/
theorem c3_selector_resolution_witness :
    parse_range "0,2-4,7" 8 none = some [0, 2, 3, 4, 7] :=
  (c3_selector_resolution "0,2-4,7" 8 none (by decide)).2.2.2.1

/-! ### Claim C4: the `all` keyword -/

/-- C4 counterexample: the claim says a spec containing `all` among other
terms expands to every index; for `0,all` over two devices the code
instead treats `all` as a group name — with no registry supplied the
term, and hence the whole selector, is rejected. -/
theorem c4_all_counterexample :
    parse_range "0,all" 2 none = none ∧ parse_range "0,all" 2 none ≠ some [0, 1] := by
  exact ⟨by decide, by decide⟩

/-- C4 amended: only when the entire spec, stripped and lowercased, is
the word `all` does `parse_range` expand to every index `0..N-1`; an
`all` appearing as one term among several is treated as a group name —
resolved against the registry when one is supplied and an error
otherwise — as the concrete `0,all` case shows. -/
theorem c4_all_keyword :
    (∀ (s : String) (N : Nat) (svcs : Option (List Device)),
        toLowerL (trimWS s.data) = "all".data → parse_range s N svcs = some (List.range N)) ∧
      (∀ (N : Nat) (l : List Device),
        parseTerm N (some l) ("all".data) =
          (if (groupIndices l (toLowerL ("all".data))).isEmpty then none
           else some (groupIndices l (toLowerL ("all".data))))) ∧
      (∀ N : Nat, parseTerm N none ("all".data) = none) ∧
      parse_range "0,all" 2 none = none := by
  refine ⟨?_, ?_, ?_, by decide⟩
  · intro s N svcs h
    unfold parse_range
    rw [if_pos (by simp [h])]
  · intro N l
    rfl
  · intro N
    rfl

/-- C4 amended, evaluated: the whole-spec form in mixed case and with
surrounding whitespace. -/
theorem c4_all_keyword_witness :
    parse_range " All " 3 none = some (List.range 3) :=
  c4_all_keyword.1 " All " 3 none (by decide)

/-! ### Claim C10: group-name terms in the `group` command -/

/-- A term the code can only read as a group name: alphanumeric with
underscores but not a digit literal. -/
def isGroupNameTerm (t : List Char) : Bool :=
  isAlnumStr (t.filter (fun c => c != '_')) && !(isDigitStr t)

/-- Sample device whose group label is the digit string `0`, reachable
through `group <range> 0` (the group-id validation accepts digits). -/
def devGroupZero : Device :=
  { name_long := "z._wled._tcp.local.", host_ip := "192.168.0.13", port := 80,
    friendly_name := "zzz", group := "0",
    power_state := none, sync_enabled := none, sync_send := none, sync_recv := none }

/-- C10 counterexample: `0` is an existing group label — device 0 of the
registry carries it and group resolution finds it — yet the group
command's registry-less parse accepts the spec `0` (as the numeric index
0) instead of rejecting it as the claim requires for every spec
containing an existing group label as a term. -/
theorem c10_group_cmd_counterexample :
    groupIndices [devGroupZero] (toLowerL ("0".data)) = [0] ∧
      parse_range "0" 1 none = some [0] := by
  exact ⟨by decide, by decide⟩

/-- C10 amended: the group command resolves its range with
`services_list = None`, so every spec containing a group-name term — an
alphanumeric/underscore term that is not a pure digit literal — is
rejected whenever the whole spec is not `all`; only numeric indices,
numeric ranges and the whole-spec `all` can select which devices to
regroup, and a group label that is itself a digit string (or the word
`all` alone) is read as an index (or as the all-spec) instead. -/
theorem c10_group_cmd_range (spec : String) (N : Nat)
    (hall : toLowerL (trimWS spec.data) ≠ "all".data)
    (hterm : ∃ p ∈ splitOnChar ',' spec.data, isGroupNameTerm (trimWS p) = true) :
    parse_range spec N none = none := by
  obtain ⟨p, hp, hg⟩ := hterm
  simp only [isGroupNameTerm, Bool.and_eq_true, Bool.not_eq_true'] at hg
  have hnone : parseTerm N none p = none := parseTerm_group_none hg.1 hg.2
  have hguard : (toLowerL (trimWS spec.data) == "all".data) = false := by
    cases hb : (toLowerL (trimWS spec.data) == "all".data)
    · rfl
    · exact absurd (by simpa using hb) hall
  unfold parse_range
  rw [if_neg (by simp [hguard])]
  rw [collectTerms_fail ⟨p, hp, hnone⟩]

/-- C10 amended, evaluated: the group command rejects a selector naming
a (well-formed) group. -/
theorem c10_group_cmd_range_witness :
    parse_range "living_room" 5 none = none :=
  c10_group_cmd_range "living_room" 5 (by decide)
    ⟨"living_room".data, by decide, by decide⟩

/-! ### Helper lemmas about the merge -/

theorem refreshDevice_refreshDevice (d : Device) (r r2 : ScanRecord) :
    refreshDevice (refreshDevice d r) r2 = refreshDevice d r2 := rfl

theorem refreshDevice_toDevice {r r2 : ScanRecord} (h : r.host_ip = r2.host_ip) :
    refreshDevice r.toDevice r2 = r2.toDevice := by
  simp [refreshDevice, ScanRecord.toDevice, h]

theorem lookup_any_false {m : List (String × Device)} {k : String}
    (h : m.any (fun p => p.1 == k) = false) : m.lookup k = none := by
  induction m with
  | nil => rfl
  | cons p es ih =>
    simp only [List.any_cons, Bool.or_eq_false_iff] at h
    have hk : (k == p.1) = false := by
      cases hb : (k == p.1)
      · rfl
      · exfalso
        have : k = p.1 := by simpa using hb
        rw [this] at h
        simp at h
    obtain ⟨k1, v⟩ := p
    simp only [List.lookup, hk, Bool.false_eq_true, if_false] at *
    exact ih h.2

theorem lookup_map_upd (r : ScanRecord) (ip : String) :
    ∀ m : List (String × Device),
      (m.map (fun p => if p.1 == r.host_ip then (p.1, refreshDevice p.2 r) else p)).lookup ip
        = (m.lookup ip).map (fun d => if ip = r.host_ip then refreshDevice d r else d) := by
  intro m
  induction m with
  | nil => rfl
  | cons p es ih =>
    obtain ⟨k1, v⟩ := p
    rw [List.map_cons]
    by_cases hkr : (k1 == r.host_ip) = true
    · rw [if_pos hkr]
      by_cases hik : (ip == k1) = true
      · have hip : ip = k1 := by simpa using hik
        have hk1r : k1 = r.host_ip := by simpa using hkr
        simp only [List.lookup, hik]
        simp [hip.trans hk1r]
      · have hik' : (ip == k1) = false := by
          cases hbe : (ip == k1)
          · rfl
          · exact absurd hbe hik
        simp only [List.lookup, hik', ih]
    · rw [if_neg hkr]
      by_cases hik : (ip == k1) = true
      · have hip : ip = k1 := by simpa using hik
        have hnr : ¬ ip = r.host_ip := by
          intro he
          exact hkr (by simp [← hip, he])
        simp only [List.lookup, hik]
        simp [hnr]
      · have hik' : (ip == k1) = false := by
          cases hbe : (ip == k1)
          · rfl
          · exact absurd hbe hik
        simp only [List.lookup, hik', ih]

theorem lookup_any_true {m : List (String × Device)} {k : String}
    (h : m.any (fun p => p.1 == k) = true) : ∃ d, m.lookup k = some d := by
  induction m with
  | nil => simp at h
  | cons p es ih =>
    obtain ⟨k1, v⟩ := p
    by_cases hk : (k == k1) = true
    · exact ⟨v, by simp only [List.lookup, hk]⟩
    · have hk' : (k == k1) = false := by
        cases hbe : (k == k1)
        · rfl
        · exact absurd hbe hk
      have hk1 : (k1 == k) = false := by
        cases hbe : (k1 == k)
        · rfl
        · exfalso
          have : k1 = k := by simpa using hbe
          exact hk (by simp [this])
      simp only [List.any_cons, hk1, Bool.false_or] at h
      obtain ⟨d, hd⟩ := ih h
      exact ⟨d, by simp only [List.lookup, hk', Bool.false_eq_true, if_false]; exact hd⟩

theorem lookup_mergeStep (m : List (String × Device)) (r : ScanRecord) (ip : String) :
    (mergeStep m r).lookup ip =
      if r.host_ip = ip then
        match m.lookup ip with
        | some d => some (refreshDevice d r)
        | none => some r.toDevice
      else m.lookup ip := by
  unfold mergeStep
  by_cases hany : m.any (fun p => p.1 == r.host_ip) = true
  · rw [if_pos hany]
    rw [lookup_map_upd]
    by_cases hip : r.host_ip = ip
    · rw [if_pos hip]
      subst hip
      cases hl : m.lookup r.host_ip with
      | none =>
        obtain ⟨d0, hd0⟩ := lookup_any_true hany
        rw [hl] at hd0
        exact absurd hd0 (by simp)
      | some d => simp
    · rw [if_neg hip]
      cases hl : m.lookup ip with
      | none => simp
      | some d =>
        have hni : ¬(ip = r.host_ip) := fun he => hip he.symm
        simp [hni]
  · rw [if_neg hany]
    have hanyf : m.any (fun p => p.1 == r.host_ip) = false := by
      cases hb : m.any (fun p => p.1 == r.host_ip)
      · rfl
      · exact absurd hb hany
    have hnone : m.lookup r.host_ip = none := lookup_any_false hanyf
    by_cases hip : r.host_ip = ip
    · subst hip
      rw [if_pos rfl, hnone]
      rw [List.lookup_append, hnone]
      simp [List.lookup]
    · rw [if_neg hip]
      rw [List.lookup_append]
      cases hl : m.lookup ip with
      | some d => simp
      | none =>
        have hb2 : (ip == r.host_ip) = false := by
          cases hb : (ip == r.host_ip)
          · rfl
          · exact absurd (Eq.symm (by simpa using hb)) hip
        simp [List.lookup, hb2]

theorem getLast?_cons_eq (x : ScanRecord) (l : List ScanRecord) :
    (x :: l).getLast? = some ((l.getLast?).getD x) := by
  induction l generalizing x with
  | nil => rfl
  | cons y ys ih =>
    rw [List.getLast?_cons_cons, ih y]
    simp

theorem lastScan_cons (ip : String) (r : ScanRecord) (rest : List ScanRecord) :
    lastScan ip (r :: rest) =
      if r.host_ip = ip then some ((lastScan ip rest).getD r) else lastScan ip rest := by
  unfold lastScan
  by_cases h : r.host_ip = ip
  · rw [if_pos h]
    rw [List.filter_cons_of_pos (by simpa using h)]
    exact getLast?_cons_eq r _
  · rw [if_neg h]
    rw [List.filter_cons_of_neg (by simpa using h)]

theorem lookup_foldl_mergeStep :
    ∀ (scanned : List ScanRecord) (m : List (String × Device)) (ip : String),
      ((scanned.foldl mergeStep m).lookup ip) =
        match m.lookup ip, lastScan ip scanned with
        | some d, some r => some (refreshDevice d r)
        | some d, none => some d
        | none, some r => some r.toDevice
        | none, none => none := by
  intro scanned
  induction scanned with
  | nil =>
    intro m ip
    rw [List.foldl_nil, show lastScan ip [] = none from rfl]
    cases hl : m.lookup ip <;> rfl
  | cons r rest ih =>
    intro m ip
    rw [List.foldl_cons, ih (mergeStep m r) ip, lookup_mergeStep, lastScan_cons]
    by_cases hip : r.host_ip = ip
    · rw [if_pos hip, if_pos hip]
      cases hl : m.lookup ip with
      | some d =>
        cases hls : lastScan ip rest with
        | some r2 => simp [refreshDevice_refreshDevice]
        | none => simp
      | none =>
        cases hls : lastScan ip rest with
        | some r2 =>
          have hr2 : r2.host_ip = ip := by
            have hmem := List.mem_of_mem_getLast? hls
            exact by simpa using (List.mem_filter.1 hmem).2
          simp [refreshDevice_toDevice (hip.trans hr2.symm)]
        | none => simp
    · rw [if_neg hip, if_neg hip]

theorem any_key_false {m : List (String × Device)} {k : String}
    (h : ∀ p ∈ m, p.1 ≠ k) : m.any (fun p => p.1 == k) = false := by
  cases ha : m.any (fun p => p.1 == k)
  · rfl
  · exfalso
    obtain ⟨p, hp, hb⟩ := List.any_eq_true.1 ha
    exact absurd (by simpa using hb) (h p hp)

theorem foldl_dictInsert_append :
    ∀ (db : List Device) (m : List (String × Device)),
      (∀ p ∈ m, p.1 ∉ db.map Device.host_ip) → (db.map Device.host_ip).Nodup →
      db.foldl (fun m d => dictInsert m d.host_ip d) m =
        m ++ db.map (fun d => (d.host_ip, d)) := by
  intro db
  induction db with
  | nil => intro m _ _; simp
  | cons d rest ih =>
    intro m hdisj hnd
    rw [List.foldl_cons]
    have hstep : dictInsert m d.host_ip d = m ++ [(d.host_ip, d)] := by
      unfold dictInsert
      rw [if_neg (by
        rw [any_key_false (fun p hp => fun he => hdisj p hp (by simp [he]))]
        simp)]
    rw [hstep]
    rw [List.map_cons, List.nodup_cons] at hnd
    have hih := ih (m ++ [(d.host_ip, d)])
      (by
        intro p hp
        rcases List.mem_append.1 hp with hp1 | hp2
        · intro hmem
          exact hdisj p hp1 (by simp [hmem])
        · simp only [List.mem_singleton] at hp2
          subst hp2
          exact hnd.1)
      hnd.2
    rw [hih, List.append_assoc]
    rfl

theorem dictOf_eq_pairs {db : List Device} (h : (db.map Device.host_ip).Nodup) :
    dictOf db = db.map (fun d => (d.host_ip, d)) := by
  unfold dictOf
  rw [foldl_dictInsert_append db [] (by simp) h]
  rfl

theorem lookup_pairs {db : List Device} (h : (db.map Device.host_ip).Nodup)
    {d : Device} (hd : d ∈ db) :
    (db.map (fun d => (d.host_ip, d))).lookup d.host_ip = some d := by
  induction db with
  | nil => simp at hd
  | cons d0 rest ih =>
    rw [List.map_cons, List.nodup_cons] at h
    rcases List.mem_cons.1 hd with rfl | hd'
    · simp [List.lookup]
    · have hne : d.host_ip ≠ d0.host_ip := by
        intro he
        exact h.1 (he ▸ List.mem_map_of_mem Device.host_ip hd')
      have hb : (d.host_ip == d0.host_ip) = false := by
        cases hbe : (d.host_ip == d0.host_ip)
        · rfl
        · exact absurd (by simpa using hbe) hne
      simp only [List.map_cons, List.lookup, hb, Bool.false_eq_true, if_false]
      exact ih h.2 hd'

theorem lookup_pairs_none {db : List Device} {ip : String}
    (h : ∀ d ∈ db, d.host_ip ≠ ip) :
    (db.map (fun d => (d.host_ip, d))).lookup ip = none := by
  induction db with
  | nil => rfl
  | cons d0 rest ih =>
    have hb : (ip == d0.host_ip) = false := by
      cases hbe : (ip == d0.host_ip)
      · rfl
      · exact absurd (Eq.symm (by simpa using hbe)) (h d0 (by simp))
    simp only [List.map_cons, List.lookup, hb, Bool.false_eq_true, if_false]
    exact ih (fun d hd => h d (by simp [hd]))

theorem mem_of_lookup : ∀ {m : List (String × Device)} {ip : String} {d : Device},
    m.lookup ip = some d → (ip, d) ∈ m := by
  intro m
  induction m with
  | nil => intro ip d h; simp [List.lookup] at h
  | cons p es ih =>
    intro ip d h
    obtain ⟨k1, v⟩ := p
    by_cases hb : (ip == k1) = true
    · simp only [List.lookup, hb, if_true] at h
      injection h with hv
      have : ip = k1 := by simpa using hb
      rw [this, hv]
      simp
    · have hb2 : (ip == k1) = false := by
        cases hbe : (ip == k1)
        · rfl
        · exact absurd hbe hb
      simp only [List.lookup, hb2] at h
      exact List.mem_cons_of_mem _ (ih h)

theorem lastScan_isSome {ip : String} {scanned : List ScanRecord} {r : ScanRecord}
    (hr : r ∈ scanned) (hip : r.host_ip = ip) :
    ∃ r2, lastScan ip scanned = some r2 ∧ r2.host_ip = ip := by
  have hne : scanned.filter (fun x => x.host_ip == ip) ≠ [] := by
    intro hnil
    have : r ∈ scanned.filter (fun x => x.host_ip == ip) :=
      List.mem_filter.2 ⟨hr, by simp [hip]⟩
    rw [hnil] at this
    simp at this
  obtain ⟨r2, hr2⟩ := Option.isSome_iff_exists.1 (List.getLast?_isSome.2 hne)
  refine ⟨r2, hr2, ?_⟩
  have hmem := List.mem_of_mem_getLast? hr2
  exact by simpa using (List.mem_filter.1 hmem).2

theorem lastScan_none {ip : String} {scanned : List ScanRecord}
    (h : ∀ r ∈ scanned, r.host_ip ≠ ip) : lastScan ip scanned = none := by
  unfold lastScan
  have : scanned.filter (fun x => x.host_ip == ip) = [] := by
    rw [List.filter_eq_nil_iff]
    intro r hr
    simp [h r hr]
  rw [this]
  rfl

theorem mergeScan_nil {db : List Device} (hnd : (db.map Device.host_ip).Nodup) :
    mergeScan db [] = db := by
  unfold mergeScan
  by_cases hdb : db.isEmpty
  · rw [if_pos hdb]
    cases db with
    | nil => rfl
    | cons d rest => simp at hdb
  · rw [if_neg hdb]
    rw [List.foldl_nil, dictOf_eq_pairs hnd, List.map_map]
    have hid : (Prod.snd ∘ fun d : Device => (d.host_ip, d)) = id := rfl
    rw [hid, List.map_id]

/-! ### Claim C1: merge preservation -/

/-- C1: for every registry (keyed by host ip) and every scan: a device
whose ip is already present keeps `group` and all cached-state fields
while `name_long`, `friendly_name` and `port` come from the last scan
record with that ip (or stay unchanged if the scan omits it); a record
with an unseen ip enters with group `_default` and all caches unknown;
devices absent from the scan survive exactly unchanged; and a scan with
zero records only re-sorts the registry — its devices are unchanged (a
permutation, and the identity on an already-sorted registry). -/
theorem c1_merge_preservation (db : List Device) (scanned : List ScanRecord)
    (hnd : (db.map Device.host_ip).Nodup) :
    (∀ d ∈ db, ∃ d2 ∈ scan_wled_devices db scanned,
        d2.host_ip = d.host_ip ∧ d2.group = d.group ∧ d2.power_state = d.power_state ∧
        d2.sync_enabled = d.sync_enabled ∧ d2.sync_send = d.sync_send ∧
        d2.sync_recv = d.sync_recv ∧
        (match lastScan d.host_ip scanned with
         | some r => d2.name_long = r.name_long ∧ d2.friendly_name = r.friendly_name ∧
             d2.port = r.port
         | none => d2.name_long = d.name_long ∧ d2.friendly_name = d.friendly_name ∧
             d2.port = d.port)) ∧
      (∀ r ∈ scanned, (∀ d ∈ db, d.host_ip ≠ r.host_ip) →
        ∃ d2 ∈ scan_wled_devices db scanned,
          d2.host_ip = r.host_ip ∧ d2.group = "_default" ∧ d2.power_state = none ∧
          d2.sync_enabled = none ∧ d2.sync_send = none ∧ d2.sync_recv = none) ∧
      (∀ d ∈ db, (∀ r ∈ scanned, r.host_ip ≠ d.host_ip) → d ∈ scan_wled_devices db scanned) ∧
      ((scan_wled_devices db []).Perm db) ∧
      (List.Sorted devLe db → scan_wled_devices db [] = db) := by
  have hmem : ∀ x, x ∈ mergeScan db scanned → x ∈ scan_wled_devices db scanned :=
    fun x hx => (List.mem_insertionSort devLe).2 hx
  refine ⟨?_, ?_, ?_, ?_, ?_⟩
  · intro d hd
    have hdbf : db.isEmpty = false := by
      cases db
      · simp at hd
      · rfl
    have hform : mergeScan db scanned = (scanned.foldl mergeStep (dictOf db)).map Prod.snd := by
      unfold mergeScan
      rw [if_neg (by simp [hdbf])]
    have hm0 : (dictOf db).lookup d.host_ip = some d := by
      rw [dictOf_eq_pairs hnd]
      exact lookup_pairs hnd hd
    have h0 := lookup_foldl_mergeStep scanned (dictOf db) d.host_ip
    rw [hm0] at h0
    cases hls : lastScan d.host_ip scanned with
    | some r =>
      rw [hls] at h0
      have hfin : (scanned.foldl mergeStep (dictOf db)).lookup d.host_ip =
          some (refreshDevice d r) := h0
      have hd2 : refreshDevice d r ∈ mergeScan db scanned := by
        rw [hform]
        exact List.mem_map_of_mem Prod.snd (mem_of_lookup hfin)
      refine ⟨refreshDevice d r, hmem _ hd2, rfl, rfl, rfl, rfl, rfl, rfl, ?_⟩
      exact ⟨rfl, rfl, rfl⟩
    | none =>
      rw [hls] at h0
      have hfin : (scanned.foldl mergeStep (dictOf db)).lookup d.host_ip = some d := h0
      have hd2 : d ∈ mergeScan db scanned := by
        rw [hform]
        exact List.mem_map_of_mem Prod.snd (mem_of_lookup hfin)
      refine ⟨d, hmem _ hd2, rfl, rfl, rfl, rfl, rfl, rfl, ?_⟩
      exact ⟨rfl, rfl, rfl⟩
  · intro r hr hfresh
    by_cases hdb : db.isEmpty = true
    · have hform : mergeScan db scanned = scanned.map ScanRecord.toDevice := by
        unfold mergeScan
        rw [if_pos hdb]
      refine ⟨r.toDevice, hmem _ (by rw [hform]; exact List.mem_map_of_mem _ hr),
        rfl, rfl, rfl, rfl, rfl, rfl⟩
    · have hdbf : db.isEmpty = false := by
        cases hb : db.isEmpty
        · rfl
        · exact absurd hb hdb
      have hform : mergeScan db scanned = (scanned.foldl mergeStep (dictOf db)).map Prod.snd := by
        unfold mergeScan
        rw [if_neg (by simp [hdbf])]
      have hm0 : (dictOf db).lookup r.host_ip = none := by
        rw [dictOf_eq_pairs hnd]
        exact lookup_pairs_none hfresh
      obtain ⟨r2, hls, hr2ip⟩ := lastScan_isSome hr rfl
      have h0 := lookup_foldl_mergeStep scanned (dictOf db) r.host_ip
      rw [hm0, hls] at h0
      have hfin : (scanned.foldl mergeStep (dictOf db)).lookup r.host_ip =
          some r2.toDevice := h0
      refine ⟨r2.toDevice,
        hmem _ (by rw [hform]; exact List.mem_map_of_mem Prod.snd (mem_of_lookup hfin)),
        hr2ip, rfl, rfl, rfl, rfl, rfl⟩
  · intro d hd habs
    have hdbf : db.isEmpty = false := by
      cases db
      · simp at hd
      · rfl
    have hform : mergeScan db scanned = (scanned.foldl mergeStep (dictOf db)).map Prod.snd := by
      unfold mergeScan
      rw [if_neg (by simp [hdbf])]
    have hm0 : (dictOf db).lookup d.host_ip = some d := by
      rw [dictOf_eq_pairs hnd]
      exact lookup_pairs hnd hd
    have hls : lastScan d.host_ip scanned = none := lastScan_none habs
    have h0 := lookup_foldl_mergeStep scanned (dictOf db) d.host_ip
    rw [hm0, hls] at h0
    have hfin : (scanned.foldl mergeStep (dictOf db)).lookup d.host_ip = some d := h0
    refine hmem _ ?_
    rw [hform]
    exact List.mem_map_of_mem Prod.snd (mem_of_lookup hfin)
  · show (sortServices (mergeScan db [])).Perm db
    rw [mergeScan_nil hnd]
    exact sortServices_perm db
  · intro hs
    show sortServices (mergeScan db []) = db
    rw [mergeScan_nil hnd]
    exact List.Sorted.insertionSort_eq hs

/-- A scan record renaming the sample `_default` device. -/
def recSample : ScanRecord :=
  { name_long := "c._wled._tcp.local.", host_ip := "192.168.0.12", port := 8080,
    friendly_name := "renamed" }

/-- C1, evaluated: a zero-record scan over a concrete one-device registry
returns the registry's device unchanged. -/
theorem c1_merge_preservation_witness :
    (scan_wled_devices [devLowDefault] []).Perm [devLowDefault] :=
  (c1_merge_preservation [devLowDefault] [] (by decide)).2.2.2.1

/-! ### Claim C6: cache-update atomicity -/

theorem retryRequest_cases (call : Device → PostOutcome → Bool × Device) (upd : Device → Device)
    (h : ∀ dv r, call dv r = (true, upd dv) ∨ call dv r = (false, dv)) :
    ∀ (resps : List PostOutcome) (d : Device) (s : Bool) (d2 : Device),
      retryRequest call d resps = (s, d2) →
      (s = true → d2 = upd d) ∧ (s = false → d2 = d) := by
  intro resps
  induction resps with
  | nil =>
    intro d s d2 hr
    unfold retryRequest at hr
    injection hr with hs hd
    subst hs
    exact ⟨fun hc => absurd hc (by simp), fun _ => hd.symm⟩
  | cons r rest ih =>
    intro d s d2 hr
    cases rest with
    | nil =>
      have hr1 : call d r = (s, d2) := hr
      rcases h d r with hc | hc <;> rw [hc] at hr1 <;> injection hr1 with hs hd
      · subst hs
        exact ⟨fun _ => hd.symm, fun hc2 => absurd hc2 (by simp)⟩
      · subst hs
        exact ⟨fun hc2 => absurd hc2 (by simp), fun _ => hd.symm⟩
    | cons r2 rest2 =>
      have hr1 : retryRequest call d (r :: r2 :: rest2) = (s, d2) := hr
      unfold retryRequest at hr1
      rcases h d r with hc | hc <;> rw [hc] at hr1
      · simp only at hr1
        injection hr1 with hs hd
        subst hs
        exact ⟨fun _ => hd.symm, fun hc2 => absurd hc2 (by simp)⟩
      · simp only at hr1
        exact ih d s d2 hr1

/-- C6: each per-device call updates exactly its cache fields on success
— `set_power` the power cache, `set_sync_enabled` the sync flag,
`set_sync_groups` both mask caches, and the `power` command's successful
status query (with a nonempty response document) the power cache from
the response's `on` field — while a call that fails after all retry
attempts leaves the device record entirely untouched. -/
theorem c6_cache_atomicity :
    (∀ (d : Device) (state : Bool) (resps : List PostOutcome) (s : Bool) (d2 : Device),
        retryRequest (fun dv r => set_power dv state r) d resps = (s, d2) →
        (s = true → d2 = { d with power_state := some state }) ∧ (s = false → d2 = d)) ∧
      (∀ (d : Device) (enabled : Bool) (resps : List PostOutcome) (s : Bool) (d2 : Device),
        retryRequest (fun dv r => set_sync_enabled dv enabled r) d resps = (s, d2) →
        (s = true → d2 = { d with sync_enabled := some enabled }) ∧ (s = false → d2 = d)) ∧
      (∀ (d : Device) (send_mask recv_mask : Nat) (resps : List PostOutcome) (s : Bool) (d2 : Device),
        retryRequest (fun dv r => set_sync_groups dv send_mask recv_mask r) d resps = (s, d2) →
        (s = true → d2 = { d with sync_send := some send_mask, sync_recv := some recv_mask }) ∧
          (s = false → d2 = d)) ∧
      (∀ (d : Device) (doc : StatusDoc), doc.isEmpty = false →
        powerRefresh d (true, some doc) = ({ d with power_state := doc.lookup "on" }, false)) ∧
      (∀ (d : Device) (p : Option StatusDoc), powerRefresh d (false, p) = (d, true)) := by
  refine ⟨?_, ?_, ?_, ?_, ?_⟩
  · intro d state resps
    refine retryRequest_cases _ (fun dv => { dv with power_state := some state }) ?_ resps d
    intro dv r
    cases r with
    | status code =>
      by_cases hc : (code == 200) = true
      · exact Or.inl (by simp [set_power, hc])
      · have hcf : (code == 200) = false := by
          cases hb : (code == 200)
          · rfl
          · exact absurd hb hc
        exact Or.inr (by simp [set_power, hcf])
    | exn => exact Or.inr rfl
  · intro d enabled resps
    refine retryRequest_cases _ (fun dv => { dv with sync_enabled := some enabled }) ?_ resps d
    intro dv r
    cases r with
    | status code =>
      by_cases hc : (code == 200) = true
      · exact Or.inl (by simp [set_sync_enabled, hc])
      · have hcf : (code == 200) = false := by
          cases hb : (code == 200)
          · rfl
          · exact absurd hb hc
        exact Or.inr (by simp [set_sync_enabled, hcf])
    | exn => exact Or.inr rfl
  · intro d send_mask recv_mask resps
    refine retryRequest_cases _
      (fun dv => { dv with sync_send := some send_mask, sync_recv := some recv_mask }) ?_ resps d
    intro dv r
    cases r with
    | status code =>
      by_cases hc : (code == 200) = true
      · exact Or.inl (by simp [set_sync_groups, hc])
      · have hcf : (code == 200) = false := by
          cases hb : (code == 200)
          · rfl
          · exact absurd hb hc
        exact Or.inr (by simp [set_sync_groups, hcf])
    | exn => exact Or.inr rfl
  · intro d doc hdoc
    have hred : powerRefresh d (true, some doc) =
        (if doc.isEmpty = true then (d, false)
         else ({ d with power_state := doc.lookup "on" }, false)) := rfl
    rw [hred, if_neg (by simp [hdoc])]
  · intro d p
    rfl

/-- C6, evaluated: a failed then successful attempt updates the power
cache; two failed attempts leave the device untouched. -/
theorem c6_cache_atomicity_witness :
    retryRequest (fun dv r => set_power dv true r) devLowDefault
        [PostOutcome.exn, PostOutcome.status 200] =
      (true, { devLowDefault with power_state := some true }) := by
  have h := c6_cache_atomicity.1 devLowDefault true [PostOutcome.exn, PostOutcome.status 200]
  cases hres : retryRequest (fun dv r => set_power dv true r) devLowDefault
      [PostOutcome.exn, PostOutcome.status 200] with
  | mk s d2 =>
    cases s
    · exfalso
      have hfst : (retryRequest (fun dv r => set_power dv true r) devLowDefault
          [PostOutcome.exn, PostOutcome.status 200]).1 = false := congrArg Prod.fst hres
      exact absurd hfst (by decide)
    · rw [(h true d2 hres).1 rfl]

/-! ### Claim C7: group reassignment exclusivity -/

theorem mapIdxD_getElem? (f : Nat → Device → Device) :
    ∀ (l : List Device) (k i : Nat), (mapIdxD f k l)[i]? = (l[i]?).map (f (k + i)) := by
  intro l
  induction l with
  | nil => intro k i; simp [mapIdxD]
  | cons d rest ih =>
    intro k i
    cases i with
    | zero => simp [mapIdxD]
    | succ j =>
      simp only [mapIdxD, List.getElem?_cons_succ]
      rw [ih (k + 1) j]
      have h2 : k + 1 + j = k + (j + 1) := by omega
      rw [h2]

/-- C7: every device at an index in the target set receives the new
group label verbatim (other fields untouched); when the label is not
(case-insensitively) `_default`, every device outside the target set
whose group matches it case-insensitively is reset to `_default` and
every other outside device is untouched; when the label is `_default`
the assignment is additive and devices outside the target set are all
untouched. -/
theorem c7_group_exclusivity (svcs : List Device) (indices : List Nat) (gid : String) :
    (assignGroup svcs indices gid).length = svcs.length ∧
      (∀ i d, i ∈ indices → svcs[i]? = some d →
        (assignGroup svcs indices gid)[i]? = some { d with group := gid }) ∧
      (String.mk (toLowerL gid.data) ≠ "_default" →
        ∀ i d, i ∉ indices → svcs[i]? = some d →
          (assignGroup svcs indices gid)[i]? =
            some (if toLowerL d.group.data = toLowerL gid.data
              then { d with group := "_default" } else d)) ∧
      (String.mk (toLowerL gid.data) = "_default" →
        ∀ i d, i ∉ indices → svcs[i]? = some d →
          (assignGroup svcs indices gid)[i]? = some d) := by
  have hlen : ∀ (f : Nat → Device → Device) (k : Nat) (l : List Device),
      (mapIdxD f k l).length = l.length := by
    intro f k l
    induction l generalizing k with
    | nil => rfl
    | cons d rest ih => simp [mapIdxD, ih]
  refine ⟨?_, ?_, ?_, ?_⟩
  · unfold assignGroup
    by_cases hg : (String.mk (toLowerL gid.data) != "_default") = true
    · rw [if_pos hg, hlen, hlen]
    · rw [if_neg hg, hlen]
  · intro i d hi hd
    unfold assignGroup
    by_cases hg : (String.mk (toLowerL gid.data) != "_default") = true
    · rw [if_pos hg]
      rw [mapIdxD_getElem?, mapIdxD_getElem?, hd]
      simp [hi]
    · rw [if_neg hg]
      rw [mapIdxD_getElem?, hd]
      simp [hi]
  · intro hne i d hi hd
    unfold assignGroup
    have hg : (String.mk (toLowerL gid.data) != "_default") = true := by simp [hne]
    rw [if_pos hg]
    rw [mapIdxD_getElem?, mapIdxD_getElem?, hd]
    by_cases hmatch : toLowerL d.group.data = toLowerL gid.data
    · simp [hi, hmatch]
    · simp [hi, hmatch]
  · intro he i d hi hd
    unfold assignGroup
    have hg : (String.mk (toLowerL gid.data) != "_default") = false := by simp [he]
    rw [if_neg (by simp [hg])]
    rw [mapIdxD_getElem?, hd]
    simp [hi]

/-- C7, evaluated: assigning device 0 to `room` while device 1 already
carries `Room` resets device 1 to `_default`. -/
theorem c7_group_exclusivity_witness :
    (assignGroup [devLowDefault, { devGroupZero with group := "Room" }] [0] "room")[0]? =
        some { devLowDefault with group := "room" } ∧
      (assignGroup [devLowDefault, { devGroupZero with group := "Room" }] [0] "room")[1]? =
        some { devGroupZero with group := "_default" } := by
  constructor
  · exact (c7_group_exclusivity [devLowDefault, { devGroupZero with group := "Room" }]
      [0] "room").2.1 0 devLowDefault (by decide) rfl
  · have h := (c7_group_exclusivity [devLowDefault, { devGroupZero with group := "Room" }]
      [0] "room").2.2.1 (by decide) 1 { devGroupZero with group := "Room" } (by decide) rfl
    rw [h]
    decide

/-! ### Claim C8: identify walk -/

theorem idStep_unrecognized {indices : List Nat} {pos : Nat} {inp : String}
    (h : String.mk (toLowerL (trimWS inp.data)) ∉
      (["e", "exit", "n", "next", "p", "prev"] : List String)) :
    idStep indices pos inp = ([IdEvent.err], some pos) := by
  simp only [List.mem_cons, List.not_mem_nil, or_false, not_or] at h
  obtain ⟨h1, h2, h3, h4, h5, h6⟩ := h
  unfold idStep
  rw [if_neg (by simp [h1, h2]), if_neg (by simp [h3, h4]), if_neg (by simp [h5, h6])]

/-- C8: entering identify mode with an empty target list performs no
device call; with targets `i0 :: rest` entry turns off every target in
list order then turns on `i0` and the loop starts at position 0; `next`
(`n`) turns off the target at the current position and turns on the one
at `(pos+1) mod N`, `prev` (`p`) symmetrically at `(pos+N-1) mod N`,
`exit` (`e`) turns off the current target and terminates, and any other
input reports an error changing neither the position nor any device. -/
theorem c8_identify_walk :
    (∀ inputs : List String, idRun [] inputs = []) ∧
      (∀ (i0 : Nat) (rest : List Nat) (inputs : List String),
        idRun (i0 :: rest) inputs =
          ((i0 :: rest).map (fun i => IdEvent.off i) ++ [IdEvent.on i0]) ++
            idLoop (i0 :: rest) 0 inputs) ∧
      (∀ (indices : List Nat) (pos : Nat),
        idStep indices pos "n" =
          ([IdEvent.off (indices.getD pos 0),
            IdEvent.on (indices.getD ((pos + 1) % indices.length) 0)],
           some ((pos + 1) % indices.length)) ∧
        idStep indices pos "next" =
          ([IdEvent.off (indices.getD pos 0),
            IdEvent.on (indices.getD ((pos + 1) % indices.length) 0)],
           some ((pos + 1) % indices.length)) ∧
        idStep indices pos "p" =
          ([IdEvent.off (indices.getD pos 0),
            IdEvent.on (indices.getD ((pos + indices.length - 1) % indices.length) 0)],
           some ((pos + indices.length - 1) % indices.length)) ∧
        idStep indices pos "prev" =
          ([IdEvent.off (indices.getD pos 0),
            IdEvent.on (indices.getD ((pos + indices.length - 1) % indices.length) 0)],
           some ((pos + indices.length - 1) % indices.length)) ∧
        idStep indices pos "e" = ([IdEvent.off (indices.getD pos 0)], none) ∧
        idStep indices pos "exit" = ([IdEvent.off (indices.getD pos 0)], none)) ∧
      (∀ (indices : List Nat) (pos : Nat) (inp : String),
        String.mk (toLowerL (trimWS inp.data)) ∉
          (["e", "exit", "n", "next", "p", "prev"] : List String) →
        idStep indices pos inp = ([IdEvent.err], some pos)) := by
  refine ⟨fun _ => rfl, fun _ _ _ => rfl, ?_, fun _ _ _ h => idStep_unrecognized h⟩
  intro indices pos
  exact ⟨rfl, rfl, rfl, rfl, rfl, rfl⟩

/-- C8, evaluated: the specification's example walk over targets
`{2,0,3}` — entry lights device 2; three `next` steps visit 0, 3 and
wrap back to 2; an unrecognized input only reports an error; `exit`
turns the current device off. -/
theorem c8_identify_walk_witness :
    idRun [2, 0, 3] ["n", "n", "n", "boguscmd", "e"] =
      [IdEvent.off 2, IdEvent.off 0, IdEvent.off 3, IdEvent.on 2,
       IdEvent.off 2, IdEvent.on 0,
       IdEvent.off 0, IdEvent.on 3,
       IdEvent.off 3, IdEvent.on 2,
       IdEvent.err,
       IdEvent.off 2] := by
  have henter := c8_identify_walk.2.1 2 [0, 3] ["n", "n", "n", "boguscmd", "e"]
  have hstep := c8_identify_walk.2.2.1 [2, 0, 3] 0
  have hbogus := c8_identify_walk.2.2.2 [2, 0, 3] 0 "boguscmd" (by decide)
  rw [henter]
  decide

/-! ### Claim C5: retry after partial failure -/

/-- C5: a bulk `on` command over targets `{0,1,2}` in which device 1's
transport always fails and devices 0 and 2 succeed records failure set
exactly `[1]`; a subsequent `retry` re-runs the same operation on
exactly index 1; when device 1 then succeeds the new failure set is
empty, so one further `retry` is rejected with the no-failures error. -/
theorem c5_retry_partial_failure (svcs : List Device) (t1 t2 : Nat → Bool)
    (hlen : svcs.length = 3)
    (h0 : t1 0 = true) (h1 : t1 1 = false) (h2 : t1 2 = true) (h1b : t2 1 = true) :
    runOnOffCmd "on 0,1,2" svcs t1 =
        some ([0, 1, 2], { last_command := some "on 0,1,2", last_failed := [1] }) ∧
      retryCommand svcs t2 { last_command := some "on 0,1,2", last_failed := [1] } =
        RetryResult.executed [1] { last_command := some "on 1", last_failed := [] } ∧
      retryCommand svcs t2 { last_command := some "on 1", last_failed := [] } =
        RetryResult.noFailures := by
  have hne : svcs.isEmpty = false := by
    cases svcs
    · simp at hlen
    · rfl
  have hfilter1 : ([0, 1, 2] : List Nat).filter (fun i => !t1 i) = [1] := by
    simp [List.filter, h0, h1, h2]
  have hfilter2 : ([1] : List Nat).filter (fun i => !t2 i) = [] := by
    simp [List.filter, h1b]
  refine ⟨?_, ?_, ?_⟩
  · have hred : runOnOffCmd "on 0,1,2" svcs t1 =
        some (([0, 1, 2] : List Nat),
          ({ last_command :=
               (if (([0, 1, 2].filter (fun i => !t1 i)).isEmpty = true) then none
                else some "on 0,1,2"),
             last_failed := [0, 1, 2].filter (fun i => !t1 i) } : RetryState)) := by
      unfold runOnOffCmd
      rw [hlen]
      exact rfl
    rw [hred, hfilter1]
    rfl
  · have hred2 : retryCommand svcs t2 { last_command := some "on 0,1,2", last_failed := [1] } =
        (if svcs.isEmpty = true then RetryResult.noDevices
         else
           match parse_range "1" svcs.length (some svcs) with
           | none => RetryResult.badRange
           | some indices =>
             RetryResult.executed indices
               { last_command := some "on 1",
                 last_failed := indices.filter (fun i => !t2 i) }) := rfl
    rw [hred2, hne]
    rw [if_neg (by simp), hlen]
    have hred3 : (match parse_range "1" 3 (some svcs) with
        | none => RetryResult.badRange
        | some indices =>
          RetryResult.executed indices
            ({ last_command := some "on 1",
               last_failed := indices.filter (fun i => !t2 i) } : RetryState)) =
        RetryResult.executed [1]
          ({ last_command := some "on 1",
             last_failed := ([1] : List Nat).filter (fun i => !t2 i) } : RetryState) := rfl
    rw [hred3, hfilter2]
  · rfl

/-- C5, evaluated at a concrete registry and transports. -/
theorem c5_retry_partial_failure_witness :
    runOnOffCmd "on 0,1,2" [devLowDefault, devCapDefault, devGroupZero]
        (fun i => decide (i ≠ 1)) =
        some ([0, 1, 2], { last_command := some "on 0,1,2", last_failed := [1] }) ∧
      retryCommand [devLowDefault, devCapDefault, devGroupZero] (fun _ => true)
          { last_command := some "on 0,1,2", last_failed := [1] } =
        RetryResult.executed [1] { last_command := some "on 1", last_failed := [] } ∧
      retryCommand [devLowDefault, devCapDefault, devGroupZero] (fun _ => true)
          { last_command := some "on 1", last_failed := [] } =
        RetryResult.noFailures :=
  c5_retry_partial_failure [devLowDefault, devCapDefault, devGroupZero]
    (fun i => decide (i ≠ 1)) (fun _ => true) rfl rfl rfl rfl rfl

end WLED
